import Mathlib

/-!
Verification development for the `inputshaping` library (input-shaper design:
shaper-family generators, strength relaxation by bisection, damping scaling,
residual-vibration evaluation and digitization of impulse sequences).

The Python source (`inputshaping.py`) is shallowly embedded below: machine
floats become real numbers, mutable object state becomes an explicit `Shaper`
record threaded through the operations, a raised Python exception becomes the
`Outcome.raised` constructor carrying the object state at the moment of the
raise, and the (unbounded) `while` loop of the bisection search is modelled
with an explicit fuel parameter (`Outcome.hung` marks fuel exhaustion, i.e. an
execution that has not terminated within the allotted iterations).
-/

namespace InputShaping

/-- Rounding to the nearest integer with ties to even, as `numpy.round`
(the source computes frame indices with `int(np.round(k/dt, 0))`). -/
noncomputable def roundNE (x : ℝ) : ℤ :=
  if x - ⌊x⌋ < 1/2 then ⌊x⌋
  else if 1/2 < x - ⌊x⌋ then ⌊x⌋ + 1
  else if Even ⌊x⌋ then ⌊x⌋ else ⌊x⌋ + 1

/-- Python float `%` for a positive modulus: `a % b = a - floor(a/b)*b`. -/
noncomputable def realMod (a b : ℝ) : ℝ := a - ⌊a / b⌋ * b

/-- Model of `[k/sum(xs) for k in xs]`, the amplitude renormalization idiom of the
source (`digitize_shaper`, `_relax_vibration`, `_scale_for_damping`). -/
noncomputable def normalize (xs : List ℝ) : List ℝ := xs.map (fun k => k / xs.sum)

/-- Model of `amps[0] = amps[0] + valueAdded` (line 389): add a scalar to the first
element of a list, leaving the rest unchanged. -/
def addFirst (xs : List ℝ) (v : ℝ) : List ℝ :=
  match xs with
  | [] => []
  | a :: as => (a + v) :: as

/-- Model of `residual_vibration(amps, times, wn, zeta, valueAdded)` (lines 388-400).
The Python function mutates the caller's amplitude list in place at line 389
(`amps[0] = amps[0] + valueAdded`) and then REBINDS the local name `amps` to a
fresh renormalized list at line 390, so the caller observes only the
first-element addition.  The embedding returns the pair
(caller-visible amplitude list, computed residual-vibration value). -/
noncomputable def residual_vibration (amps times : List ℝ) (wn zeta v : ℝ) :
    List ℝ × ℝ :=
  let ampsMut := addFirst amps v
  let a := normalize ampsMut
  let wd := wn * Real.sqrt (1 - zeta ^ 2)
  let C := (a.zip times).map (fun p => p.1 * Real.exp (zeta * wn * p.2) * Real.cos (wd * p.2))
  let S := (a.zip times).map (fun p => p.1 * Real.exp (zeta * wn * p.2) * Real.sin (wd * p.2))
  let tLast := times.getD (a.length - 1) 0
  (ampsMut, Real.exp (-zeta * wn * tLast) * Real.sqrt (C.sum ^ 2 + S.sum ^ 2))

/-- The residual-vibration value returned by `residual_vibration`. -/
noncomputable def rvVal (amps times : List ℝ) (wn zeta v : ℝ) : ℝ :=
  (residual_vibration amps times wn zeta v).2

/-- Model of `scaled_cubic(a0, a1, a2, a3, xIn, kIn)` (lines 403-404). -/
noncomputable def scaled_cubic (a0 a1 a2 a3 xIn kIn : ℝ) : ℝ :=
  kIn * (a0 + a1 * xIn + a2 * xIn ^ 2 + a3 * xIn ^ 3)

/-- The state of an `InputShaper` object: construction parameters, the derived
constants of `__init__`, and the fields written by the shaper generators. -/
structure Shaper where
  wn : ℝ
  zeta : ℝ
  fps : ℝ
  dt : ℝ
  wd : ℝ
  Tn : ℝ
  shaperType : String
  strengthFrac : Option ℝ  -- `none` models `np.nan` (OFF / CUSTOM)
  conNum : ℕ
  conAmps : List ℝ
  conTimes : List ℝ
  digNum : ℕ
  digAmps : List ℝ
  digTimes : List ℝ
  digFrames : List ℤ

attribute [ext] Shaper

/-- The kind of Python exception a call can raise. -/
inductive ErrKind where
  | assertionError
  | zeroDivisionError
  | indexError
  deriving DecidableEq

/-- The observable result of a generator call on a `Shaper` object: normal
return, a raised exception (carrying the object state at the raise, since the
methods mutate `self` as they go), or a non-terminated bisection loop
(fuel exhaustion in the model; the object state at loop entry is carried). -/
inductive Outcome where
  | ok (s : Shaper)
  | raised (e : ErrKind) (s : Shaper)
  | hung (s : Shaper)

/-- The `Shaper` state held inside an `Outcome`. -/
def Outcome.state : Outcome → Shaper
  | .ok s => s
  | .raised _ s => s
  | .hung s => s

/-- Whether a call returned normally. -/
def Outcome.isOk : Outcome → Bool
  | .ok _ => true
  | _ => false

/-- Whether a call raised an exception. -/
def Outcome.isRaised : Outcome → Bool
  | .raised _ _ => true
  | _ => false

/-- Model of `OFF()` (lines 100-109) as a state transform: reset to the unshaped
single-impulse sequence. -/
def applyOFF (s : Shaper) : Shaper :=
  { s with
    shaperType := "OFF"
    strengthFrac := none
    conNum := 1
    conAmps := [1]
    conTimes := [0]
    digNum := 1
    digAmps := [1]
    digTimes := [0]
    digFrames := [0] }

/-- Model of `InputShaper(wn, zeta, fps)` (lines 62-69): store the parameters, derive
`dt`, `wd`, `Tn`, and initialize as OFF. -/
noncomputable def mkShaper (wn zeta fps : ℝ) : Shaper :=
  applyOFF
    { wn := wn
      zeta := zeta
      fps := fps
      dt := 1 / fps
      wd := wn * Real.sqrt (1 - zeta ^ 2)
      Tn := 2 * Real.pi / wn
      shaperType := ""
      strengthFrac := none
      conNum := 0
      conAmps := []
      conTimes := []
      digNum := 0
      digAmps := []
      digTimes := []
      digFrames := [] }

/-- One impulse of the digitization loop body (lines 368-380): an impulse at a
grid-aligned time is kept, an off-grid impulse is split onto the two
bracketing grid times with the trigonometric amplitude split. -/
noncomputable def digStep (wn zeta wd dt a t : ℝ) : List ℝ × List ℝ :=
  if realMod t dt = 0 then ([a], [t])
  else
    let tk := (⌊t / dt⌋ : ℝ) * dt
    let tkNext := (⌈t / dt⌉ : ℝ) * dt
    let phik := |tk - t| * wd
    let phikNext := |tkNext - t| * wd
    let den := Real.sin phikNext * Real.cos phik + Real.sin phik * Real.cos phikNext
    ([a * Real.exp (-zeta * (tk - t) * wn) * (Real.sin phikNext / den),
      a * Real.exp (-zeta * (tkNext - t) * wn) * (Real.sin phik / den)],
     [tk, tkNext])

/-- The pre-normalization amplitude list `B` of `digitize_shaper`
(lines 363-380): the first impulse kept as-is, every later impulse kept or
split by `digStep`. -/
noncomputable def digitizeB (amps times : List ℝ) (wn zeta dt : ℝ) : List ℝ :=
  match amps, times with
  | a0 :: as, _t0 :: ts =>
      let wd := wn * Real.sqrt (1 - zeta ^ 2)
      a0 :: ((as.zip ts).map (fun p => (digStep wn zeta wd dt p.1 p.2).1)).flatten
  | _, _ => []

/-- The digital time list `t` of `digitize_shaper` (lines 364-380). -/
noncomputable def digitizeT (amps times : List ℝ) (wn zeta dt : ℝ) : List ℝ :=
  match amps, times with
  | _a0 :: as, t0 :: ts =>
      let wd := wn * Real.sqrt (1 - zeta ^ 2)
      t0 :: ((as.zip ts).map (fun p => (digStep wn zeta wd dt p.1 p.2).2)).flatten
  | _, _ => []

/-- The result quadruple of `digitize_shaper`. -/
structure DigOut where
  num : ℕ
  amps : List ℝ
  times : List ℝ
  frames : List ℤ

/-- Model of `digitize_shaper(amps, times, wn, zeta, dt)` (lines 360-385): `none`
models the `IndexError` Python raises at `B = [amps[0]]` on an empty input. -/
noncomputable def digitize_shaper (amps times : List ℝ) (wn zeta dt : ℝ) :
    Option DigOut :=
  match amps, times with
  | _ :: _, _ :: _ =>
      let B := digitizeB amps times wn zeta dt
      let t := digitizeT amps times wn zeta dt
      some ⟨B.length, normalize B, t, t.map (fun k => roundNE (k / dt))⟩
  | _, _ => none

/-- The bisection loop of `_relax_vibration` (lines 313-323), with explicit
fuel.  Mirrors the Python `while`: the midpoint and its vibration value are
computed for the current bracket, the tolerance is tested, and on failure the
bracket is updated and the loop repeats.  `iter` models the `iterationNum`
local, which the source increments but never reads. -/
noncomputable def relax_loop (amps times : List ℝ) (wn p : ℝ) :
    ℕ → ℕ → ℝ → ℝ → Option ℝ
  | fuel, iter, lower, upper =>
    let mid := (upper - lower) / 2 + lower
    let v := rvVal amps times wn 0 mid
    if |v - p| ≤ 1 / 10000 then some mid
    else
      match fuel with
      | 0 => none
      | f + 1 =>
          if v > p then relax_loop amps times wn p f (iter + 1) lower mid
          else relax_loop amps times wn p f (iter + 1) mid upper

/-- Model of `_relax_vibration(strengthFrac)` (lines 296-326) as a state transform.
The guard order follows the source: the strength assertion first, then the
`partialFrac` branches, then the upper-bound assertion, then the bisection
loop; on convergence the found value is added to the first amplitude and the
amplitudes renormalized. -/
noncomputable def relax_vibration (s : Shaper) (strengthFrac : ℝ) (fuel : ℕ) :
    Outcome :=
  if ¬(0 ≤ strengthFrac ∧ strengthFrac ≤ 1) then .raised .assertionError s
  else
    let pFrac := 1 - strengthFrac
    if pFrac = 0 then .ok s
    else if pFrac = 1 then .ok (applyOFF s)
    else
      let hv := rvVal s.conAmps s.conTimes s.wn 0 1000
      if ¬(hv > strengthFrac) then .raised .assertionError s
      else
        match relax_loop s.conAmps s.conTimes s.wn pFrac fuel 0 0 1000 with
        | some m => .ok { s with conAmps := normalize (addFirst s.conAmps m) }
        | none => .hung s

/-- Model of `_scale_for_damping()` (lines 329-332): stretch the times to the damped
period, decay-weight the amplitudes at the new times, renormalize. -/
noncomputable def scale_for_damping (s : Shaper) : Shaper :=
  let ts := s.conTimes.map (fun k => k / Real.sqrt (1 - s.zeta ^ 2))
  let as := (s.conAmps.zip ts).map (fun p => p.1 * Real.exp (-s.zeta * s.wn * p.2))
  { s with conTimes := ts, conAmps := normalize as }

/-- The common tail of every generator: feed the continuous sequence to
`digitize_shaper` and store the digital sequence (the unpacking assignment on
e.g. line 130). -/
noncomputable def digitizePart (s : Shaper) : Outcome :=
  match digitize_shaper s.conAmps s.conTimes s.wn s.zeta s.dt with
  | some d => .ok { s with digNum := d.num, digAmps := d.amps, digTimes := d.times,
                           digFrames := d.frames }
  | none => .raised .indexError s

/-- The `relax → scale → digitize` tail shared by the strength-accepting
generators (e.g. lines 128-130 of `ZV`). -/
noncomputable def pipeline (s1 : Shaper) (strengthFrac : ℝ) (fuel : ℕ) : Outcome :=
  match relax_vibration s1 strengthFrac fuel with
  | .ok s2 => digitizePart (scale_for_damping s2)
  | e => e

/-- Model of `OFF()` as a generator call (always succeeds, no digitization). -/
def OFFrun (s : Shaper) : Outcome := .ok (applyOFF s)

/-- Model of `CUSTOM(impulseSeq)` (lines 112-119): set type and strength, assert the
even length, split the flat sequence into amplitude and time halves,
digitize.  The continuous amplitudes are stored as supplied (no
renormalization, no relaxation, no damping scaling). -/
noncomputable def CUSTOMrun (s : Shaper) (impulseSeq : List ℝ) : Outcome :=
  let s1 := { s with shaperType := "CUSTOM", strengthFrac := none }
  if impulseSeq.length % 2 ≠ 0 then .raised .assertionError s1
  else
    let n := impulseSeq.length / 2
    digitizePart { s1 with conNum := n, conAmps := impulseSeq.take n,
                           conTimes := impulseSeq.drop n }

/-- Model of `ZV(strengthFrac)` (lines 122-131). -/
noncomputable def ZVrun (s : Shaper) (strengthFrac : ℝ) (fuel : ℕ) : Outcome :=
  pipeline
    { s with shaperType := "ZV", strengthFrac := some strengthFrac, conNum := 2,
             conAmps := [0.5, 0.5], conTimes := [0, 0.5 * s.Tn] }
    strengthFrac fuel

/-- Model of `ZVD(strengthFrac)` (lines 133-141). -/
noncomputable def ZVDrun (s : Shaper) (strengthFrac : ℝ) (fuel : ℕ) : Outcome :=
  pipeline
    { s with shaperType := "ZVD", strengthFrac := some strengthFrac, conNum := 3,
             conAmps := [0.25, 0.5, 0.25], conTimes := [0, 0.5 * s.Tn, s.Tn] }
    strengthFrac fuel

/-- Model of `ZVDD(strengthFrac)` (lines 144-152). -/
noncomputable def ZVDDrun (s : Shaper) (strengthFrac : ℝ) (fuel : ℕ) : Outcome :=
  pipeline
    { s with shaperType := "ZVDD", strengthFrac := some strengthFrac, conNum := 4,
             conAmps := [0.125, 0.375, 0.375, 0.125],
             conTimes := [0, 0.5 * s.Tn, s.Tn, 1.5 * s.Tn] }
    strengthFrac fuel

/-- Model of `ZVDDD(strengthFrac)` (lines 155-163). -/
noncomputable def ZVDDDrun (s : Shaper) (strengthFrac : ℝ) (fuel : ℕ) : Outcome :=
  pipeline
    { s with shaperType := "ZVDDD", strengthFrac := some strengthFrac, conNum := 5,
             conAmps := [0.0625, 0.25, 0.375, 0.25, 0.0625],
             conTimes := [0, 0.5 * s.Tn, s.Tn, 1.5 * s.Tn, 2.0 * s.Tn] }
    strengthFrac fuel

/-- Model of `SNA(negativeAmp, strengthFrac)` (lines 166-177): the `negativeAmp` range
assertion fires before any mutation of `self`. -/
noncomputable def SNArun (s : Shaper) (negativeAmp strengthFrac : ℝ) (fuel : ℕ) :
    Outcome :=
  if ¬(0 ≤ negativeAmp ∧ negativeAmp ≤ 1) then .raised .assertionError s
  else
    let b := -1 * negativeAmp
    let a := (1 - b) / 2
    pipeline
      { s with shaperType := "SNA", strengthFrac := some strengthFrac, conNum := 3,
               conAmps := [a, b, a],
               conTimes := [0, (1 / s.wn) * Real.arccos (-b / (2 * a)),
                            (1 / s.wn) * Real.arccos (b ^ 2 / (2 * a ^ 2) - 1)] }
      strengthFrac fuel

/-- Model of `EI(tolerableVib, strengthFrac)` (lines 180-189): the `tolerableVib` range
assertion fires before any mutation; the strength passed to the relaxer is
`max(0, strengthFrac - tolerableVib)`. -/
noncomputable def EIrun (s : Shaper) (tolerableVib strengthFrac : ℝ) (fuel : ℕ) :
    Outcome :=
  if ¬(0 ≤ tolerableVib ∧ tolerableVib ≤ 1) then .raised .assertionError s
  else
    pipeline
      { s with shaperType := "EI", strengthFrac := some strengthFrac, conNum := 3,
               conAmps := [0.25 * (1 + tolerableVib), 0.5 * (1 - tolerableVib),
                           0.25 * (1 + tolerableVib)],
               conTimes := [0, 0.5 * s.Tn, s.Tn] }
      (max 0 (strengthFrac - tolerableVib)) fuel

/-- The raw loop amplitudes of `_generate_rm_impulses` (line 289):
`(-1)**(k+1) * (1/(impulseNum-1))`. -/
noncomputable def rmRaw (n : ℕ) : List ℝ :=
  (List.range n).map (fun k => (-1) ^ (k + 1) * (1 / ((n : ℝ) - 1)))

/-- Model of `impAmps[0] = 0.5*impAmps[0] + 1` (line 291). -/
def modHead (g : ℝ → ℝ) : List ℝ → List ℝ
  | [] => []
  | a :: as => g a :: as

/-- Model of `impAmps[-1] = 0.5*impAmps[-1]` (line 292). -/
def modLast (g : ℝ → ℝ) : List ℝ → List ℝ
  | [] => []
  | [a] => [g a]
  | a :: b :: as => a :: modLast g (b :: as)

/-- The amplitude list returned by `_generate_rm_impulses` (lines 286-292). -/
noncomputable def rmAmps (n : ℕ) : List ℝ :=
  modLast (fun a => 0.5 * a) (modHead (fun a => 0.5 * a + 1) (rmRaw n))

/-- The time list of `_generate_rm_impulses` (line 290): `0.5*k*Tn`. -/
noncomputable def rmTimes (n : ℕ) (Tn : ℝ) : List ℝ :=
  (List.range n).map (fun k : ℕ => 0.5 * (k : ℝ) * Tn)

/-- Model of `_generate_rm_impulses(impulseNum)` (lines 285-293).  `impulseNum = 1`
makes line 289 compute `1.0/0.0` (Python `ZeroDivisionError`); `impulseNum=0`
makes line 291 index an empty list (Python `IndexError`).  Neither value is
validated by the source. -/
noncomputable def generate_rm_impulses (n : ℕ) (Tn : ℝ) :
    Except ErrKind (List ℝ × List ℝ) :=
  if n = 0 then .error .indexError
  else if n = 1 then .error .zeroDivisionError
  else .ok (rmAmps n, rmTimes n Tn)

/-- Model of `RM(impulseNum, strengthFrac)` (lines 192-199).  `RM3`, `RM4`, `RM5`
(lines 202-232) repeat this body verbatim with `impulseNum` fixed. -/
noncomputable def RMrun (s : Shaper) (n : ℕ) (strengthFrac : ℝ) (fuel : ℕ) :
    Outcome :=
  let s1 := { s with shaperType := "RM" ++ toString n,
                     strengthFrac := some strengthFrac, conNum := n }
  match generate_rm_impulses n s.Tn with
  | .error e => .raised e s1
  | .ok (as, ts) =>
      pipeline { s1 with conAmps := as, conTimes := ts } strengthFrac fuel

/-- Model of `RM3(strengthFrac)` (lines 202-210). -/
noncomputable def RM3run (s : Shaper) (strengthFrac : ℝ) (fuel : ℕ) : Outcome :=
  RMrun s 3 strengthFrac fuel

/-- Model of `RM4(strengthFrac)` (lines 213-221). -/
noncomputable def RM4run (s : Shaper) (strengthFrac : ℝ) (fuel : ℕ) : Outcome :=
  RMrun s 4 strengthFrac fuel

/-- Model of `RM5(strengthFrac)` (lines 224-232). -/
noncomputable def RM5run (s : Shaper) (strengthFrac : ℝ) (fuel : ℕ) : Outcome :=
  RMrun s 5 strengthFrac fuel

/-- Model of `UMZV()` (lines 235-249): fixed ±1 amplitudes, times from cubic fits in
zeta; no strength relaxation and no damping scaling. -/
noncomputable def UMZVrun (s : Shaper) : Outcome :=
  let t2 := scaled_cubic 0.16724 0.27242 0.20345 0 s.zeta s.Tn
  let t3 := scaled_cubic 0.33323 0.00533 0.17914 0.20125 s.zeta s.Tn
  digitizePart
    { s with shaperType := "UMZV", strengthFrac := some 1, conNum := 3,
             conAmps := [1, -1, 1], conTimes := [0, t2, t3] }

/-- Model of `UMZVD()` (lines 252-266). -/
noncomputable def UMZVDrun (s : Shaper) : Outcome :=
  let t2 := scaled_cubic 0.08945 0.28411 0.23013 0.16401 s.zeta s.Tn
  let t3 := scaled_cubic 0.36613 (-0.08833) 0.24048 0.17001 s.zeta s.Tn
  let t4 := scaled_cubic 0.64277 0.29103 0.23262 0.43784 s.zeta s.Tn
  let t5 := scaled_cubic 0.73228 0.00992 0.49385 0.38633 s.zeta s.Tn
  digitizePart
    { s with shaperType := "UMZVD", strengthFrac := some 1, conNum := 5,
             conAmps := [1, -1, 1, -1, 1], conTimes := [0, t2, t3, t4, t5] }

/-- The decay-weighted (pre-normalization) amplitude list of
`_scale_for_damping` (line 331), over the already-stretched times. -/
noncomputable def dampWeighted (s : Shaper) : List ℝ :=
  (s.conAmps.zip (s.conTimes.map (fun k => k / Real.sqrt (1 - s.zeta ^ 2)))).map
    (fun p => p.1 * Real.exp (-s.zeta * s.wn * p.2))

/-- A concrete model: natural frequency 1 rad/s, damping ratio 0, sampling
rate 100 frames/s. -/
noncomputable def sigmaOne : Shaper := mkShaper 1 0 100

/-- The state of `sigmaOne` after `ZV(1)` just before digitization. -/
noncomputable def zvScaled : Shaper :=
  { sigmaOne with shaperType := "ZV", strengthFrac := some 1, conNum := 2,
                  conAmps := [1/2, 1/2], conTimes := [0, Real.pi] }

/-- The final state of `sigmaOne` after `ZV(1)`. -/
noncomputable def zvFinal : Shaper := (digitizePart zvScaled).state

/-- The exact midpoint at which the bisection of `EI(0.05, 0.5)` on
`sigmaOne` meets the `1e-4` tolerance (19 halvings of `[0, 1000]`). -/
noncomputable def mhatEI : ℝ := 145625 / 131072

/-- The state of `sigmaOne` after the base-pattern construction of
`EI(1/20, 1/2)` (strength is relaxed with target `max(0, 1/2 - 1/20)`). -/
noncomputable def eiBase : Shaper :=
  { sigmaOne with shaperType := "EI", strengthFrac := some (1/2), conNum := 3,
                  conAmps := [21/80, 19/40, 21/80],
                  conTimes := [0, Real.pi, 2 * Real.pi] }

/-- The state of `eiBase` after strength relaxation (damping scaling at
`zeta = 0` leaves it unchanged). -/
noncomputable def eiRelaxed : Shaper :=
  { eiBase with conAmps := normalize (addFirst [21/80, 19/40, 21/80] mhatEI) }

/-- The final state of `sigmaOne` after `EI(1/20, 1/2)`. -/
noncomputable def eiFinal : Shaper := (digitizePart eiRelaxed).state

/-- A `sigmaOne`-like state whose continuous sequence is the full-strength ZV
pattern (used to exercise the relaxer on a zero-vibration input). -/
noncomputable def sigmaZVbase : Shaper :=
  { sigmaOne with conAmps := [1/2, 1/2], conTimes := [0, Real.pi] }

/-- The digital frame/time consistency invariant of the data model: every
stored frame index is the stored time divided by the model's own `dt`,
rounded, and `dt` is the reciprocal of the sampling rate. -/
noncomputable def FrameInv (s : Shaper) : Prop :=
  s.digFrames = s.digTimes.map (fun k => roundNE (k / s.dt)) ∧ s.dt = 1 / s.fps

/-- The amplitude-sum invariant: the stored continuous amplitudes sum to 1
within 1e-9, and the stored digital amplitudes sum to 1 within 1e-9 whenever
the digitizer's pre-normalization amplitude sum is nonzero. -/
noncomputable def SumInv (s : Shaper) : Prop :=
  |s.conAmps.sum - 1| ≤ 1 / 1000000000 ∧
    ((digitizeB s.conAmps s.conTimes s.wn s.zeta s.dt).sum ≠ 0 →
      |s.digAmps.sum - 1| ≤ 1 / 1000000000)

/-! ### Generic lemmas about the embedded primitives -/

lemma sum_map_div (xs : List ℝ) (c : ℝ) :
    (xs.map (fun k => k / c)).sum = xs.sum / c := by
  induction xs with
  | nil => simp
  | cons a as ih => simp [ih, add_div]

lemma normalize_sum (xs : List ℝ) (h : xs.sum ≠ 0) : (normalize xs).sum = 1 := by
  simp [normalize, sum_map_div, div_self h]

lemma normalize_eq_self (xs : List ℝ) (h : xs.sum = 1) : normalize xs = xs := by
  simp [normalize, h]

lemma normalize_idem (xs : List ℝ) : normalize (normalize xs) = normalize xs := by
  by_cases h : xs.sum = 0
  · simp [normalize, h]
  · exact normalize_eq_self _ (normalize_sum xs h)

lemma normalize_length (xs : List ℝ) : (normalize xs).length = xs.length := by
  simp [normalize]

lemma addFirst_cons (a : ℝ) (as : List ℝ) (v : ℝ) :
    addFirst (a :: as) v = (a + v) :: as := rfl

lemma addFirst_zero (xs : List ℝ) : addFirst xs 0 = xs := by
  cases xs <;> simp [addFirst]

lemma addFirst_sum (a : ℝ) (as : List ℝ) (v : ℝ) :
    (addFirst (a :: as) v).sum = (a :: as).sum + v := by
  simp [addFirst]; ring

lemma addFirst_length (xs : List ℝ) (v : ℝ) :
    (addFirst xs v).length = xs.length := by
  cases xs <;> simp [addFirst]

lemma relax_loop_zero (amps times : List ℝ) (wn p : ℝ) (iter : ℕ) (l u : ℝ) :
    relax_loop amps times wn p 0 iter l u =
      (if |rvVal amps times wn 0 ((u - l) / 2 + l) - p| ≤ 1 / 10000
       then some ((u - l) / 2 + l) else none) := rfl

lemma relax_loop_succ (amps times : List ℝ) (wn p : ℝ) (f iter : ℕ) (l u : ℝ) :
    relax_loop amps times wn p (f + 1) iter l u =
      (if |rvVal amps times wn 0 ((u - l) / 2 + l) - p| ≤ 1 / 10000
       then some ((u - l) / 2 + l)
       else if rvVal amps times wn 0 ((u - l) / 2 + l) > p
            then relax_loop amps times wn p f (iter + 1) l ((u - l) / 2 + l)
            else relax_loop amps times wn p f (iter + 1) ((u - l) / 2 + l) u) := rfl

/-- Whenever the bisection loop returns a value, that value meets the
tolerance check of line 316. -/
lemma relax_loop_sound (amps times : List ℝ) (wn p : ℝ) :
    ∀ (fuel iter : ℕ) (l u m : ℝ),
      relax_loop amps times wn p fuel iter l u = some m →
      |rvVal amps times wn 0 m - p| ≤ 1 / 10000 := by
  intro fuel
  induction fuel with
  | zero =>
      intro iter l u m h
      rw [relax_loop_zero] at h
      by_cases hc : |rvVal amps times wn 0 ((u - l) / 2 + l) - p| ≤ 1 / 10000
      · rw [if_pos hc] at h
        obtain rfl := Option.some.inj h
        exact hc
      · rw [if_neg hc] at h
        exact absurd h (by simp)
  | succ f ih =>
      intro iter l u m h
      rw [relax_loop_succ] at h
      by_cases hc : |rvVal amps times wn 0 ((u - l) / 2 + l) - p| ≤ 1 / 10000
      · rw [if_pos hc] at h
        obtain rfl := Option.some.inj h
        exact hc
      · rw [if_neg hc] at h
        by_cases hgt : rvVal amps times wn 0 ((u - l) / 2 + l) > p
        · rw [if_pos hgt] at h; exact ih _ _ _ _ h
        · rw [if_neg hgt] at h; exact ih _ _ _ _ h

/-- The value returned by the bisection loop lies inside the initial
(nonnegative) bracket. -/
lemma relax_loop_nonneg (amps times : List ℝ) (wn p : ℝ) :
    ∀ (fuel iter : ℕ) (l u m : ℝ), 0 ≤ l → l ≤ u →
      relax_loop amps times wn p fuel iter l u = some m → 0 ≤ m := by
  intro fuel
  induction fuel with
  | zero =>
      intro iter l u m hl hlu h
      rw [relax_loop_zero] at h
      by_cases hc : |rvVal amps times wn 0 ((u - l) / 2 + l) - p| ≤ 1 / 10000
      · rw [if_pos hc] at h
        obtain rfl := Option.some.inj h
        linarith
      · rw [if_neg hc] at h
        exact absurd h (by simp)
  | succ f ih =>
      intro iter l u m hl hlu h
      rw [relax_loop_succ] at h
      by_cases hc : |rvVal amps times wn 0 ((u - l) / 2 + l) - p| ≤ 1 / 10000
      · rw [if_pos hc] at h
        obtain rfl := Option.some.inj h
        linarith
      · rw [if_neg hc] at h
        by_cases hgt : rvVal amps times wn 0 ((u - l) / 2 + l) > p
        · rw [if_pos hgt] at h
          exact ih _ _ _ _ hl (by linarith) h
        · rw [if_neg hgt] at h
          exact ih _ _ _ _ (by linarith) (by linarith) h

/-- Case analysis of a normal return of `_relax_vibration`: either the
strength is 1 (sequence unchanged), the strength is 0 (reset to OFF), or a
strictly fractional strength ran the bisection loop to convergence and the
found value was folded into the first amplitude and renormalized. -/
lemma relax_vibration_ok (s : Shaper) (sf : ℝ) (fuel : ℕ) (s2 : Shaper)
    (h : relax_vibration s sf fuel = .ok s2) :
    (0 ≤ sf ∧ sf ≤ 1) ∧
      ((sf = 1 ∧ s2 = s) ∨ (sf = 0 ∧ s2 = applyOFF s) ∨
        (0 < sf ∧ sf < 1 ∧ ∃ m, 0 ≤ m ∧
          relax_loop s.conAmps s.conTimes s.wn (1 - sf) fuel 0 0 1000 = some m ∧
          s2 = { s with conAmps := normalize (addFirst s.conAmps m) })) := by
  unfold relax_vibration at h
  by_cases hval : 0 ≤ sf ∧ sf ≤ 1
  · rw [if_neg (not_not_intro hval)] at h
    refine ⟨hval, ?_⟩
    by_cases h1 : (1 : ℝ) - sf = 0
    · rw [if_pos h1] at h
      exact Or.inl ⟨by linarith, (Outcome.ok.inj h).symm⟩
    · rw [if_neg h1] at h
      by_cases h2 : (1 : ℝ) - sf = 1
      · rw [if_pos h2] at h
        exact Or.inr (Or.inl ⟨by linarith, (Outcome.ok.inj h).symm⟩)
      · rw [if_neg h2] at h
        by_cases h3 : rvVal s.conAmps s.conTimes s.wn 0 1000 > sf
        · rw [if_neg (not_not_intro h3)] at h
          cases heq : relax_loop s.conAmps s.conTimes s.wn (1 - sf) fuel 0 0 1000 with
          | some m =>
              rw [heq] at h
              refine Or.inr (Or.inr ⟨?_, ?_, m, ?_, rfl, (Outcome.ok.inj h).symm⟩)
              · rcases lt_or_eq_of_le hval.1 with hlt | hzero
                · exact hlt
                · exact absurd (by rw [← hzero]; ring) h2
              · rcases lt_or_eq_of_le hval.2 with hlt | hone
                · exact hlt
                · exact absurd (by rw [hone]; ring) h1
              · exact relax_loop_nonneg _ _ _ _ fuel 0 0 1000 m le_rfl (by norm_num) heq
          | none =>
              rw [heq] at h
              exact Outcome.noConfusion h
        · rw [if_pos h3] at h
          exact Outcome.noConfusion h
  · rw [if_pos hval] at h
    exact Outcome.noConfusion h

lemma relax_vibration_full (s : Shaper) (fuel : ℕ) :
    relax_vibration s 1 fuel = .ok s := by
  unfold relax_vibration
  rw [if_neg (by norm_num : ¬¬((0:ℝ) ≤ 1 ∧ (1:ℝ) ≤ 1))]
  norm_num

lemma relax_vibration_off (s : Shaper) (fuel : ℕ) :
    relax_vibration s 0 fuel = .ok (applyOFF s) := by
  unfold relax_vibration
  rw [if_neg (by norm_num : ¬¬((0:ℝ) ≤ 0 ∧ (0:ℝ) ≤ 1))]
  norm_num

lemma scale_for_damping_eq (s : Shaper) :
    scale_for_damping s =
      { s with conTimes := s.conTimes.map (fun k => k / Real.sqrt (1 - s.zeta ^ 2)),
               conAmps := normalize (dampWeighted s) } := rfl

lemma pipeline_ok (s1 : Shaper) (sf : ℝ) (fuel : ℕ) (s3 : Shaper)
    (h : pipeline s1 sf fuel = .ok s3) :
    ∃ s2, relax_vibration s1 sf fuel = .ok s2 ∧
      digitizePart (scale_for_damping s2) = .ok s3 := by
  unfold pipeline at h
  cases heq : relax_vibration s1 sf fuel with
  | ok s2 =>
      rw [heq] at h
      exact ⟨s2, rfl, h⟩
  | raised e s0 =>
      rw [heq] at h
      exact Outcome.noConfusion h
  | hung s0 =>
      rw [heq] at h
      exact Outcome.noConfusion h

lemma digitizePart_cons (s : Shaper) (a t : ℝ) (as ts : List ℝ)
    (ha : s.conAmps = a :: as) (ht : s.conTimes = t :: ts) :
    digitizePart s = .ok
      { s with
        digNum := (digitizeB s.conAmps s.conTimes s.wn s.zeta s.dt).length
        digAmps := normalize (digitizeB s.conAmps s.conTimes s.wn s.zeta s.dt)
        digTimes := digitizeT s.conAmps s.conTimes s.wn s.zeta s.dt
        digFrames := (digitizeT s.conAmps s.conTimes s.wn s.zeta s.dt).map
          (fun k => roundNE (k / s.dt)) } := by
  unfold digitizePart digitize_shaper
  rw [ha, ht]

lemma digitizePart_ok_fields (s s3 : Shaper) (h : digitizePart s = .ok s3) :
    s3.wn = s.wn ∧ s3.zeta = s.zeta ∧ s3.fps = s.fps ∧ s3.dt = s.dt ∧
    s3.Tn = s.Tn ∧ s3.shaperType = s.shaperType ∧
    s3.strengthFrac = s.strengthFrac ∧ s3.conAmps = s.conAmps ∧
    s3.conTimes = s.conTimes ∧
    s3.digAmps = normalize (digitizeB s.conAmps s.conTimes s.wn s.zeta s.dt) ∧
    s3.digTimes = digitizeT s.conAmps s.conTimes s.wn s.zeta s.dt ∧
    s3.digFrames = (digitizeT s.conAmps s.conTimes s.wn s.zeta s.dt).map
      (fun k => roundNE (k / s.dt)) := by
  unfold digitizePart at h
  cases hd : digitize_shaper s.conAmps s.conTimes s.wn s.zeta s.dt with
  | none =>
      rw [hd] at h
      exact Outcome.noConfusion h
  | some d =>
      rw [hd] at h
      obtain rfl := (Outcome.ok.inj h).symm
      unfold digitize_shaper at hd
      cases hca : s.conAmps with
      | nil =>
          rw [hca] at hd
          exact Option.noConfusion hd
      | cons a as =>
          cases hct : s.conTimes with
          | nil =>
              rw [hca, hct] at hd
              exact Option.noConfusion hd
          | cons t ts =>
              rw [hca, hct] at hd
              obtain rfl := (Option.some.inj hd).symm
              exact ⟨rfl, rfl, rfl, rfl, rfl, rfl, rfl, rfl, rfl, rfl, rfl, rfl⟩

lemma dampWeighted_def (s : Shaper) :
    dampWeighted s =
      (s.conAmps.zip (s.conTimes.map (fun k => k / Real.sqrt (1 - s.zeta ^ 2)))).map
        (fun p => p.1 * Real.exp (-s.zeta * s.wn * p.2)) := rfl

lemma scale_sum_one (s : Shaper) (h : (dampWeighted s).sum ≠ 0) :
    (scale_for_damping s).conAmps.sum = 1 := by
  rw [scale_for_damping_eq]
  exact normalize_sum _ h

lemma normalize_cons (x : ℝ) (xs : List ℝ) :
    normalize (x :: xs) =
      x / (x :: xs).sum :: xs.map (fun k => k / (x :: xs).sum) := by
  simp [normalize]

lemma zip_exp_sum_nonneg (L T : List ℝ) (z w : ℝ) (hL : ∀ x ∈ L, 0 ≤ x) :
    0 ≤ ((L.zip T).map (fun p => p.1 * Real.exp (-z * w * p.2))).sum := by
  apply List.sum_nonneg
  intro x hx
  obtain ⟨⟨y, t⟩, hp, rfl⟩ := List.mem_map.1 hx
  exact mul_nonneg (hL y (List.of_mem_zip hp).1) (Real.exp_pos _).le

lemma zip_exp_sum_pos (a t : ℝ) (L T : List ℝ) (z w : ℝ)
    (ha : 0 < a) (hL : ∀ x ∈ L, 0 ≤ x) :
    0 < (((a :: L).zip (t :: T)).map (fun p => p.1 * Real.exp (-z * w * p.2))).sum := by
  rw [List.zip_cons_cons, List.map_cons, List.sum_cons]
  have h1 : 0 < a * Real.exp (-z * w * t) := mul_pos ha (Real.exp_pos _)
  have h2 := zip_exp_sum_nonneg L T z w hL
  linarith

lemma list_sum_ge_neg (c : ℝ) :
    ∀ L : List ℝ, (∀ x ∈ L, |x| ≤ c) → -(c * L.length) ≤ L.sum := by
  intro L
  induction L with
  | nil => simp
  | cons a L ih =>
      intro hL
      have ha := abs_le.1 (hL a (List.mem_cons_self a L))
      have ih2 := ih (fun x hx => hL x (List.mem_cons_of_mem a hx))
      rw [List.sum_cons, List.length_cons]
      push_cast
      nlinarith [ha.1, ih2]

lemma zip_exp_sum_ge (z w c : ℝ) (hc : 0 ≤ c) :
    ∀ (L T : List ℝ), (∀ x ∈ L, |x| ≤ c) → (∀ t ∈ T, 0 ≤ z * w * t) →
      -(c * L.length) ≤ ((L.zip T).map (fun p => p.1 * Real.exp (-z * w * p.2))).sum := by
  intro L
  induction L with
  | nil => intro T _ _; simp
  | cons a L ih =>
      intro T hL hT
      cases T with
      | nil =>
          simp only [List.zip_nil_right, List.map_nil, List.sum_nil]
          have h1 : (0:ℝ) ≤ (List.length (a :: L) : ℝ) := by positivity
          nlinarith
      | cons t T =>
          rw [List.zip_cons_cons, List.map_cons, List.sum_cons, List.length_cons]
          have hepos : 0 < Real.exp (-z * w * t) := Real.exp_pos _
          have hexp1 : Real.exp (-z * w * t) ≤ 1 := by
            have hz : -z * w * t = -(z * w * t) := by ring
            rw [hz]
            calc Real.exp (-(z * w * t)) ≤ Real.exp 0 :=
                  Real.exp_le_exp.mpr (by linarith [hT t (List.mem_cons_self t T)])
              _ = 1 := Real.exp_zero
          have ha := abs_le.1 (hL a (List.mem_cons_self a L))
          have key : -c ≤ a * Real.exp (-z * w * t) := by
            nlinarith [mul_nonneg (by linarith [ha.1] : (0:ℝ) ≤ a + c) hepos.le]
          have ih2 := ih (T := T) (fun x hx => hL x (List.mem_cons_of_mem a hx))
            (fun x hx => hT x (List.mem_cons_of_mem t hx))
          push_cast
          linarith

/-- Across a normal pipeline return, the continuous amplitudes sum to 1
(provided every relax outcome feeds the scaler a list with positive
decay-weighted sum), and the digital amplitudes sum to 1 whenever the
digitizer's pre-normalization sum is nonzero. -/
lemma pipeline_sums_core (s1 : Shaper) (sf : ℝ) (fuel : ℕ) (s3 : Shaper)
    (h : pipeline s1 sf fuel = .ok s3)
    (hgood : ∀ s2, relax_vibration s1 sf fuel = .ok s2 → 0 < (dampWeighted s2).sum) :
    s3.conAmps.sum = 1 ∧
      ((digitizeB s3.conAmps s3.conTimes s3.wn s3.zeta s3.dt).sum ≠ 0 →
        s3.digAmps.sum = 1) := by
  obtain ⟨s2, hr, hd⟩ := pipeline_ok s1 sf fuel s3 h
  obtain ⟨hwn, hz, hfps, hdt, hTn, hty, hsf2, hca, hct, hda, hdT, hdF⟩ :=
    digitizePart_ok_fields _ _ hd
  constructor
  · rw [hca]
    exact scale_sum_one s2 (ne_of_gt (hgood s2 hr))
  · intro hB
    rw [hwn, hz, hdt, hca, hct] at hB
    rw [hda]
    exact normalize_sum _ hB

/-- A pipeline call with a strictly positive strength preserves the shaper
type, the stored strength, and the model constants set before the call. -/
lemma pipeline_preserve (s1 : Shaper) (sf : ℝ) (fuel : ℕ) (s3 : Shaper)
    (h : pipeline s1 sf fuel = .ok s3) (hsf : 0 < sf) :
    s3.shaperType = s1.shaperType ∧ s3.strengthFrac = s1.strengthFrac ∧
    s3.wn = s1.wn ∧ s3.zeta = s1.zeta ∧ s3.dt = s1.dt ∧ s3.fps = s1.fps := by
  obtain ⟨s2, hr, hd⟩ := pipeline_ok s1 sf fuel s3 h
  obtain ⟨hwn, hz, hfps, hdt, hTn, hty, hsf2, _, _, _, _, _⟩ :=
    digitizePart_ok_fields _ _ hd
  obtain ⟨hval, hcase⟩ := relax_vibration_ok s1 sf fuel s2 hr
  rcases hcase with ⟨_, rfl⟩ | ⟨h0, _⟩ | ⟨_, _, m, _, _, rfl⟩
  · exact ⟨hty, hsf2, hwn, hz, hdt, hfps⟩
  · exact absurd h0 (by linarith)
  · exact ⟨hty, hsf2, hwn, hz, hdt, hfps⟩

/-- The digital frame indices stored by `digitizePart` are exactly the stored
digital times divided by `dt` and rounded. -/
lemma digitizePart_frames (s s3 : Shaper) (h : digitizePart s = .ok s3) :
    s3.digFrames = s3.digTimes.map (fun k => roundNE (k / s3.dt)) := by
  obtain ⟨_, _, _, hdt, _, _, _, _, _, _, hdT, hdF⟩ := digitizePart_ok_fields _ _ h
  rw [hdF, hdT, hdt]

/-- Frame/time consistency and `dt` preservation across a pipeline call. -/
lemma pipeline_frames (s1 : Shaper) (sf : ℝ) (fuel : ℕ) (s3 : Shaper)
    (h : pipeline s1 sf fuel = .ok s3) :
    s3.digFrames = s3.digTimes.map (fun k => roundNE (k / s3.dt)) ∧ s3.dt = s1.dt := by
  obtain ⟨s2, hr, hd⟩ := pipeline_ok s1 sf fuel s3 h
  refine ⟨digitizePart_frames _ _ hd, ?_⟩
  have hdt := (digitizePart_ok_fields _ _ hd).2.2.2.1
  obtain ⟨_, hcase⟩ := relax_vibration_ok s1 sf fuel s2 hr
  rcases hcase with ⟨_, rfl⟩ | ⟨_, rfl⟩ | ⟨_, _, m, _, _, rfl⟩
  · exact hdt
  · exact hdt
  · exact hdt

/-- For a base sequence with positive head amplitude and nonnegative tail
amplitudes, every state the relaxer can produce hands the damping scaler a
list with positive decay-weighted sum. -/
lemma relax_good_of_nonneg (s1 : Shaper) (sf : ℝ) (fuel : ℕ)
    (a t : ℝ) (as ts : List ℝ)
    (hca : s1.conAmps = a :: as) (hct : s1.conTimes = t :: ts)
    (hpos : 0 < a) (hnn : ∀ x ∈ as, 0 ≤ x) :
    ∀ s2, relax_vibration s1 sf fuel = .ok s2 → 0 < (dampWeighted s2).sum := by
  intro s2 hr
  obtain ⟨hval, hcase⟩ := relax_vibration_ok s1 sf fuel s2 hr
  rcases hcase with ⟨_, rfl⟩ | ⟨_, rfl⟩ | ⟨_, _, m, hm, _, rfl⟩
  · rw [dampWeighted_def, hca, hct, List.map_cons]
    exact zip_exp_sum_pos _ _ _ _ _ _ hpos hnn
  · rw [dampWeighted_def]
    simp only [applyOFF]
    rw [List.map_cons]
    exact zip_exp_sum_pos _ _ _ _ _ _ one_pos (by simp)
  · rw [dampWeighted_def]
    dsimp only
    rw [hca, hct, addFirst_cons, normalize_cons, List.map_cons]
    have hS : (0:ℝ) < ((a + m) :: as).sum := by
      have hnn2 := List.sum_nonneg hnn
      rw [List.sum_cons]
      linarith
    refine zip_exp_sum_pos _ _ _ _ _ _ (div_pos (by linarith) hS) ?_
    intro x hx
    obtain ⟨y, hy, rfl⟩ := List.mem_map.1 hx
    exact div_nonneg (hnn y hy) hS.le

/-- The residual vibration of the unshaped single impulse is 1. -/
lemma rvVal_one (wn zeta : ℝ) : rvVal [1] [0] wn zeta 0 = 1 := by
  simp only [rvVal, residual_vibration, addFirst, normalize, List.sum_cons, List.sum_nil,
    List.map_cons, List.map_nil, List.zip_cons_cons, List.zip_nil_right]
  norm_num

/-- The full-strength ZV sequence cancels all vibration at the modeled
frequency with zero damping. -/
lemma rvZV0 : rvVal [1/2, 1/2] [0, Real.pi] 1 0 0 = 0 := by
  have h1 : Real.sqrt (1 - (0:ℝ)^2) = 1 := by norm_num
  simp only [rvVal, residual_vibration, addFirst, normalize, List.sum_cons, List.sum_nil,
    List.map_cons, List.map_nil, List.zip_cons_cons, List.zip_nil_right, h1]
  simp only [one_mul, mul_zero, zero_mul, Real.exp_zero, mul_one, Real.cos_pi, Real.sin_pi,
    Real.cos_zero, Real.sin_zero, neg_zero, neg_mul, add_zero, List.length_cons,
    List.length_nil, List.getD]
  norm_num

/-- Evaluating the residual vibration of an already relaxed-and-renormalized
sequence equals evaluating the original sequence with the found value added
(the evaluator renormalizes internally). -/
lemma rvVal_normalize_addFirst (A T : List ℝ) (wn zeta v : ℝ) :
    rvVal (normalize (addFirst A v)) T wn zeta 0 = rvVal A T wn zeta v := by
  simp only [rvVal, residual_vibration, addFirst_zero, normalize_idem]

/-- Closed form of the residual vibration probed by the bisection search of
`EI(1/20, 1/2)` on `sigmaOne`. -/
lemma rvEI (m : ℝ) (hm : 0 ≤ m) :
    rvVal [21/80, 19/40, 21/80] [0, Real.pi, 2 * Real.pi] 1 0 m = (m + 1/20) / (m + 1) := by
  have h1 : Real.sqrt (1 - (0:ℝ)^2) = 1 := by norm_num
  simp only [rvVal, residual_vibration, addFirst, normalize, List.sum_cons, List.sum_nil,
    List.map_cons, List.map_nil, List.zip_cons_cons, List.zip_nil_right, h1]
  simp only [one_mul, mul_zero, zero_mul, Real.exp_zero, mul_one, Real.cos_pi, Real.sin_pi,
    Real.cos_zero, Real.sin_zero, Real.cos_two_pi, Real.sin_two_pi, neg_zero, neg_mul,
    List.sum_cons, List.sum_nil, List.getD, List.length_cons, List.length_nil]
  rw [show (21:ℝ)/80 + m + (19/40 + (21/80 + 0)) = m + 1 by ring]
  rw [show ((21:ℝ)/80 + m)/(m+1) + (19/40/(m+1) * -1 + (21/80/(m+1) + 0)) = (m + 1/20)/(m+1) by ring]
  rw [show ((0:ℝ) + (0 + (0 + 0)))^2 = 0 by norm_num, add_zero]
  exact Real.sqrt_sq (div_nonneg (by linarith) (by linarith))

/-- Exact evaluation of the bisection search run by `EI(1/20, 1/2)` on
`sigmaOne`: 19 bracket halvings meet the tolerance at `145625/131072`. -/
lemma ei_loop_eval :
    relax_loop [21/80, 19/40, 21/80] [0, Real.pi, 2 * Real.pi] 1 (11/20) 30 0 0 1000 = some (145625/131072) := by
  have h0 : relax_loop [21/80, 19/40, 21/80] [0, Real.pi, 2 * Real.pi] 1 (11/20) (29 + 1) 0 (0) (1000) =
      relax_loop [21/80, 19/40, 21/80] [0, Real.pi, 2 * Real.pi] 1 (11/20) 29 1 (0) (500) := by
    rw [relax_loop_succ,
      show ((1000:ℝ) - 0) / 2 + 0 = 500 by norm_num,
      rvEI (500) (by norm_num), if_neg (by rw [abs_le]; norm_num),
      if_pos (by norm_num)]
  have h1 : relax_loop [21/80, 19/40, 21/80] [0, Real.pi, 2 * Real.pi] 1 (11/20) (28 + 1) 1 (0) (500) =
      relax_loop [21/80, 19/40, 21/80] [0, Real.pi, 2 * Real.pi] 1 (11/20) 28 2 (0) (250) := by
    rw [relax_loop_succ,
      show ((500:ℝ) - 0) / 2 + 0 = 250 by norm_num,
      rvEI (250) (by norm_num), if_neg (by rw [abs_le]; norm_num),
      if_pos (by norm_num)]
  have h2 : relax_loop [21/80, 19/40, 21/80] [0, Real.pi, 2 * Real.pi] 1 (11/20) (27 + 1) 2 (0) (250) =
      relax_loop [21/80, 19/40, 21/80] [0, Real.pi, 2 * Real.pi] 1 (11/20) 27 3 (0) (125) := by
    rw [relax_loop_succ,
      show ((250:ℝ) - 0) / 2 + 0 = 125 by norm_num,
      rvEI (125) (by norm_num), if_neg (by rw [abs_le]; norm_num),
      if_pos (by norm_num)]
  have h3 : relax_loop [21/80, 19/40, 21/80] [0, Real.pi, 2 * Real.pi] 1 (11/20) (26 + 1) 3 (0) (125) =
      relax_loop [21/80, 19/40, 21/80] [0, Real.pi, 2 * Real.pi] 1 (11/20) 26 4 (0) (125/2) := by
    rw [relax_loop_succ,
      show ((125:ℝ) - 0) / 2 + 0 = 125/2 by norm_num,
      rvEI (125/2) (by norm_num), if_neg (by rw [abs_le]; norm_num),
      if_pos (by norm_num)]
  have h4 : relax_loop [21/80, 19/40, 21/80] [0, Real.pi, 2 * Real.pi] 1 (11/20) (25 + 1) 4 (0) (125/2) =
      relax_loop [21/80, 19/40, 21/80] [0, Real.pi, 2 * Real.pi] 1 (11/20) 25 5 (0) (125/4) := by
    rw [relax_loop_succ,
      show ((125/2:ℝ) - 0) / 2 + 0 = 125/4 by norm_num,
      rvEI (125/4) (by norm_num), if_neg (by rw [abs_le]; norm_num),
      if_pos (by norm_num)]
  have h5 : relax_loop [21/80, 19/40, 21/80] [0, Real.pi, 2 * Real.pi] 1 (11/20) (24 + 1) 5 (0) (125/4) =
      relax_loop [21/80, 19/40, 21/80] [0, Real.pi, 2 * Real.pi] 1 (11/20) 24 6 (0) (125/8) := by
    rw [relax_loop_succ,
      show ((125/4:ℝ) - 0) / 2 + 0 = 125/8 by norm_num,
      rvEI (125/8) (by norm_num), if_neg (by rw [abs_le]; norm_num),
      if_pos (by norm_num)]
  have h6 : relax_loop [21/80, 19/40, 21/80] [0, Real.pi, 2 * Real.pi] 1 (11/20) (23 + 1) 6 (0) (125/8) =
      relax_loop [21/80, 19/40, 21/80] [0, Real.pi, 2 * Real.pi] 1 (11/20) 23 7 (0) (125/16) := by
    rw [relax_loop_succ,
      show ((125/8:ℝ) - 0) / 2 + 0 = 125/16 by norm_num,
      rvEI (125/16) (by norm_num), if_neg (by rw [abs_le]; norm_num),
      if_pos (by norm_num)]
  have h7 : relax_loop [21/80, 19/40, 21/80] [0, Real.pi, 2 * Real.pi] 1 (11/20) (22 + 1) 7 (0) (125/16) =
      relax_loop [21/80, 19/40, 21/80] [0, Real.pi, 2 * Real.pi] 1 (11/20) 22 8 (0) (125/32) := by
    rw [relax_loop_succ,
      show ((125/16:ℝ) - 0) / 2 + 0 = 125/32 by norm_num,
      rvEI (125/32) (by norm_num), if_neg (by rw [abs_le]; norm_num),
      if_pos (by norm_num)]
  have h8 : relax_loop [21/80, 19/40, 21/80] [0, Real.pi, 2 * Real.pi] 1 (11/20) (21 + 1) 8 (0) (125/32) =
      relax_loop [21/80, 19/40, 21/80] [0, Real.pi, 2 * Real.pi] 1 (11/20) 21 9 (0) (125/64) := by
    rw [relax_loop_succ,
      show ((125/32:ℝ) - 0) / 2 + 0 = 125/64 by norm_num,
      rvEI (125/64) (by norm_num), if_neg (by rw [abs_le]; norm_num),
      if_pos (by norm_num)]
  have h9 : relax_loop [21/80, 19/40, 21/80] [0, Real.pi, 2 * Real.pi] 1 (11/20) (20 + 1) 9 (0) (125/64) =
      relax_loop [21/80, 19/40, 21/80] [0, Real.pi, 2 * Real.pi] 1 (11/20) 20 10 (125/128) (125/64) := by
    rw [relax_loop_succ,
      show ((125/64:ℝ) - 0) / 2 + 0 = 125/128 by norm_num,
      rvEI (125/128) (by norm_num), if_neg (by rw [abs_le]; norm_num),
      if_neg (by norm_num)]
  have h10 : relax_loop [21/80, 19/40, 21/80] [0, Real.pi, 2 * Real.pi] 1 (11/20) (19 + 1) 10 (125/128) (125/64) =
      relax_loop [21/80, 19/40, 21/80] [0, Real.pi, 2 * Real.pi] 1 (11/20) 19 11 (125/128) (375/256) := by
    rw [relax_loop_succ,
      show ((125/64:ℝ) - 125/128) / 2 + 125/128 = 375/256 by norm_num,
      rvEI (375/256) (by norm_num), if_neg (by rw [abs_le]; norm_num),
      if_pos (by norm_num)]
  have h11 : relax_loop [21/80, 19/40, 21/80] [0, Real.pi, 2 * Real.pi] 1 (11/20) (18 + 1) 11 (125/128) (375/256) =
      relax_loop [21/80, 19/40, 21/80] [0, Real.pi, 2 * Real.pi] 1 (11/20) 18 12 (125/128) (625/512) := by
    rw [relax_loop_succ,
      show ((375/256:ℝ) - 125/128) / 2 + 125/128 = 625/512 by norm_num,
      rvEI (625/512) (by norm_num), if_neg (by rw [abs_le]; norm_num),
      if_pos (by norm_num)]
  have h12 : relax_loop [21/80, 19/40, 21/80] [0, Real.pi, 2 * Real.pi] 1 (11/20) (17 + 1) 12 (125/128) (625/512) =
      relax_loop [21/80, 19/40, 21/80] [0, Real.pi, 2 * Real.pi] 1 (11/20) 17 13 (1125/1024) (625/512) := by
    rw [relax_loop_succ,
      show ((625/512:ℝ) - 125/128) / 2 + 125/128 = 1125/1024 by norm_num,
      rvEI (1125/1024) (by norm_num), if_neg (by rw [abs_le]; norm_num),
      if_neg (by norm_num)]
  have h13 : relax_loop [21/80, 19/40, 21/80] [0, Real.pi, 2 * Real.pi] 1 (11/20) (16 + 1) 13 (1125/1024) (625/512) =
      relax_loop [21/80, 19/40, 21/80] [0, Real.pi, 2 * Real.pi] 1 (11/20) 16 14 (1125/1024) (2375/2048) := by
    rw [relax_loop_succ,
      show ((625/512:ℝ) - 1125/1024) / 2 + 1125/1024 = 2375/2048 by norm_num,
      rvEI (2375/2048) (by norm_num), if_neg (by rw [abs_le]; norm_num),
      if_pos (by norm_num)]
  have h14 : relax_loop [21/80, 19/40, 21/80] [0, Real.pi, 2 * Real.pi] 1 (11/20) (15 + 1) 14 (1125/1024) (2375/2048) =
      relax_loop [21/80, 19/40, 21/80] [0, Real.pi, 2 * Real.pi] 1 (11/20) 15 15 (1125/1024) (4625/4096) := by
    rw [relax_loop_succ,
      show ((2375/2048:ℝ) - 1125/1024) / 2 + 1125/1024 = 4625/4096 by norm_num,
      rvEI (4625/4096) (by norm_num), if_neg (by rw [abs_le]; norm_num),
      if_pos (by norm_num)]
  have h15 : relax_loop [21/80, 19/40, 21/80] [0, Real.pi, 2 * Real.pi] 1 (11/20) (14 + 1) 15 (1125/1024) (4625/4096) =
      relax_loop [21/80, 19/40, 21/80] [0, Real.pi, 2 * Real.pi] 1 (11/20) 14 16 (1125/1024) (9125/8192) := by
    rw [relax_loop_succ,
      show ((4625/4096:ℝ) - 1125/1024) / 2 + 1125/1024 = 9125/8192 by norm_num,
      rvEI (9125/8192) (by norm_num), if_neg (by rw [abs_le]; norm_num),
      if_pos (by norm_num)]
  have h16 : relax_loop [21/80, 19/40, 21/80] [0, Real.pi, 2 * Real.pi] 1 (11/20) (13 + 1) 16 (1125/1024) (9125/8192) =
      relax_loop [21/80, 19/40, 21/80] [0, Real.pi, 2 * Real.pi] 1 (11/20) 13 17 (18125/16384) (9125/8192) := by
    rw [relax_loop_succ,
      show ((9125/8192:ℝ) - 1125/1024) / 2 + 1125/1024 = 18125/16384 by norm_num,
      rvEI (18125/16384) (by norm_num), if_neg (by rw [abs_le]; norm_num),
      if_neg (by norm_num)]
  have h17 : relax_loop [21/80, 19/40, 21/80] [0, Real.pi, 2 * Real.pi] 1 (11/20) (12 + 1) 17 (18125/16384) (9125/8192) =
      relax_loop [21/80, 19/40, 21/80] [0, Real.pi, 2 * Real.pi] 1 (11/20) 12 18 (36375/32768) (9125/8192) := by
    rw [relax_loop_succ,
      show ((9125/8192:ℝ) - 18125/16384) / 2 + 18125/16384 = 36375/32768 by norm_num,
      rvEI (36375/32768) (by norm_num), if_neg (by rw [abs_le]; norm_num),
      if_neg (by norm_num)]
  have h18 : relax_loop [21/80, 19/40, 21/80] [0, Real.pi, 2 * Real.pi] 1 (11/20) (11 + 1) 18 (36375/32768) (9125/8192) =
      relax_loop [21/80, 19/40, 21/80] [0, Real.pi, 2 * Real.pi] 1 (11/20) 11 19 (36375/32768) (72875/65536) := by
    rw [relax_loop_succ,
      show ((9125/8192:ℝ) - 36375/32768) / 2 + 36375/32768 = 72875/65536 by norm_num,
      rvEI (72875/65536) (by norm_num), if_neg (by rw [abs_le]; norm_num),
      if_pos (by norm_num)]
  have h19 : relax_loop [21/80, 19/40, 21/80] [0, Real.pi, 2 * Real.pi] 1 (11/20) (10 + 1) 19 (36375/32768) (72875/65536) = some (145625/131072) := by
    rw [relax_loop_succ,
      show ((72875/65536:ℝ) - 36375/32768) / 2 + 36375/32768 = 145625/131072 by norm_num,
      rvEI (145625/131072) (by norm_num), if_pos (by rw [abs_le]; norm_num)]
  exact (((((((((((((((((((h0).trans h1).trans h2).trans h3).trans h4).trans h5).trans h6).trans h7).trans h8).trans h9).trans h10).trans h11).trans h12).trans h13).trans h14).trans h15).trans h16).trans h17).trans h18).trans h19

lemma sigmaOne_Tn : sigmaOne.Tn = 2 * Real.pi / 1 := rfl

/-- The base state built by `EI(1/20, 1/2)` on `sigmaOne` equals `eiBase`. -/
lemma ei_base_eq :
    ({ sigmaOne with shaperType := "EI", strengthFrac := some (1/2), conNum := 3,
                     conAmps := [0.25 * (1 + 1/20), 0.5 * (1 - 1/20), 0.25 * (1 + 1/20)],
                     conTimes := [0, 0.5 * sigmaOne.Tn, sigmaOne.Tn] } : Shaper) = eiBase := by
  have ht : (0.5 : ℝ) * sigmaOne.Tn = Real.pi := by rw [sigmaOne_Tn]; ring
  have ht2 : sigmaOne.Tn = 2 * Real.pi := by rw [sigmaOne_Tn]; ring
  have ha : [(0.25 : ℝ) * (1 + 1/20), 0.5 * (1 - 1/20), 0.25 * (1 + 1/20)] =
      [21/80, 19/40, 21/80] := by norm_num
  rw [ht, ht2, ha]
  rfl

/-- The strength relaxation inside `EI(1/20, 1/2)` on `sigmaOne` converges to
`mhatEI` and folds it into the first amplitude. -/
lemma ei_relax_eval : relax_vibration eiBase (9/20) 30 = .ok eiRelaxed := by
  unfold relax_vibration
  rw [if_neg (by norm_num : ¬¬((0:ℝ) ≤ 9/20 ∧ (9:ℝ)/20 ≤ 1))]
  dsimp only
  rw [if_neg (by norm_num : ¬((1:ℝ) - 9/20 = 0)),
      if_neg (by norm_num : ¬((1:ℝ) - 9/20 = 1))]
  have hv : rvVal eiBase.conAmps eiBase.conTimes eiBase.wn 0 1000 = 20001/20020 := by
    show rvVal [21/80, 19/40, 21/80] [0, Real.pi, 2 * Real.pi] 1 0 1000 = 20001/20020
    rw [rvEI 1000 (by norm_num)]
    norm_num
  rw [hv, if_neg (not_not_intro (by norm_num : (20001:ℝ)/20020 > 9/20))]
  have hl : relax_loop eiBase.conAmps eiBase.conTimes eiBase.wn (1 - 9/20) 30 0 0 1000 =
      some (145625/131072) := by
    show relax_loop [21/80, 19/40, 21/80] [0, Real.pi, 2 * Real.pi] 1 (1 - 9/20) 30 0 0 1000 =
      some (145625/131072)
    rw [show (1:ℝ) - 9/20 = 11/20 by norm_num]
    exact ei_loop_eval
  rw [hl]
  rfl

/-- Damping scaling at `zeta = 0` leaves the relaxed EI state unchanged. -/
lemma ei_scale_eval : scale_for_damping eiRelaxed = eiRelaxed := by
  rw [scale_for_damping_eq]
  have h1 : Real.sqrt (1 - eiRelaxed.zeta ^ 2) = 1 := by
    show Real.sqrt (1 - (0:ℝ) ^ 2) = 1
    norm_num
  have hT : eiRelaxed.conTimes.map (fun k => k / Real.sqrt (1 - eiRelaxed.zeta ^ 2)) =
      eiRelaxed.conTimes := by
    simp only [h1, div_one, List.map_id']
  have hz2 : (fun p : ℝ × ℝ => p.1 * Real.exp (-eiRelaxed.zeta * eiRelaxed.wn * p.2)) =
      fun p : ℝ × ℝ => p.1 := by
    funext p
    show p.1 * Real.exp (-(0:ℝ) * 1 * p.2) = p.1
    norm_num
  have hlen : eiRelaxed.conAmps.length ≤ ((eiRelaxed.conTimes.map
      (fun k => k / Real.sqrt (1 - eiRelaxed.zeta ^ 2))).length) := by
    rw [hT]
    show (normalize (addFirst [21/80, 19/40, 21/80] mhatEI)).length ≤
      ([0, Real.pi, 2 * Real.pi] : List ℝ).length
    rw [normalize_length, addFirst_length]
    simp
  have hA : normalize (dampWeighted eiRelaxed) = eiRelaxed.conAmps := by
    rw [dampWeighted_def, hz2,
      show (fun p : ℝ × ℝ => p.1) = Prod.fst from rfl,
      List.map_fst_zip _ _ hlen]
    show normalize (normalize (addFirst [21/80, 19/40, 21/80] mhatEI)) =
      normalize (addFirst [21/80, 19/40, 21/80] mhatEI)
    exact normalize_idem _
  rw [hT, hA]

/-- Digitizing the relaxed EI state yields `eiFinal`. -/
lemma ei_dig_eval : digitizePart eiRelaxed = .ok eiFinal := rfl

/-- Full evaluation of `EI(1/20, 1/2)` on `sigmaOne`. -/
lemma ei_run_eval : EIrun sigmaOne (1/20) (1/2) 30 = .ok eiFinal := by
  unfold EIrun
  rw [if_neg (by norm_num : ¬¬((0:ℝ) ≤ 1/20 ∧ (1:ℝ)/20 ≤ 1))]
  rw [show max (0:ℝ) (1/2 - 1/20) = 9/20 by norm_num]
  rw [ei_base_eq]
  unfold pipeline
  rw [ei_relax_eval]
  show digitizePart (scale_for_damping eiRelaxed) = .ok eiFinal
  rw [ei_scale_eval]
  exact ei_dig_eval

/-- Damping scaling at `zeta = 0` only renormalizes the amplitudes. -/
lemma scale_for_damping_zeta0 (s : Shaper) (hz : s.zeta = 0)
    (hlen : s.conAmps.length ≤ s.conTimes.length) :
    scale_for_damping s = { s with conAmps := normalize s.conAmps } := by
  rw [scale_for_damping_eq]
  have h1 : Real.sqrt (1 - s.zeta ^ 2) = 1 := by rw [hz]; norm_num
  have hT : s.conTimes.map (fun k => k / Real.sqrt (1 - s.zeta ^ 2)) = s.conTimes := by
    simp only [h1, div_one, List.map_id']
  have hz2 : (fun p : ℝ × ℝ => p.1 * Real.exp (-s.zeta * s.wn * p.2)) =
      fun p : ℝ × ℝ => p.1 := by
    funext p
    rw [hz]
    norm_num
  have hA : dampWeighted s = s.conAmps := by
    rw [dampWeighted_def, hT, hz2, show (fun p : ℝ × ℝ => p.1) = Prod.fst from rfl,
      List.map_fst_zip _ _ hlen]
  rw [hT, hA]

/-- Full evaluation of `ZV(1)` on `sigmaOne`. -/
lemma zv_run_eval : ZVrun sigmaOne 1 1 = .ok zvFinal := by
  unfold ZVrun pipeline
  rw [relax_vibration_full]
  show digitizePart (scale_for_damping
    { sigmaOne with shaperType := "ZV", strengthFrac := some 1, conNum := 2,
                    conAmps := [0.5, 0.5], conTimes := [0, 0.5 * sigmaOne.Tn] }) = .ok zvFinal
  rw [scale_for_damping_zeta0 _ rfl (by simp)]
  rw [show normalize ({ sigmaOne with shaperType := "ZV", strengthFrac := some 1, conNum := 2,
                                      conAmps := [0.5, 0.5],
                                      conTimes := [0, 0.5 * sigmaOne.Tn] } : Shaper).conAmps =
      [1/2, 1/2] by
    show normalize [0.5, 0.5] = [1/2, 1/2]
    simp only [normalize, List.sum_cons, List.sum_nil, List.map_cons, List.map_nil]
    norm_num]
  rw [show (0.5 : ℝ) * sigmaOne.Tn = Real.pi by rw [sigmaOne_Tn]; ring]
  exact rfl

lemma zvFinal_conAmps : zvFinal.conAmps = [1/2, 1/2] := rfl

lemma zvFinal_conTimes : zvFinal.conTimes = [0, Real.pi] := rfl

lemma zvFinal_type : zvFinal.shaperType = "ZV" := rfl

lemma zvFinal_strength : zvFinal.strengthFrac = some 1 := rfl

lemma eiFinal_conAmps : eiFinal.conAmps = normalize (addFirst [21/80, 19/40, 21/80] mhatEI) := rfl

lemma eiFinal_conTimes : eiFinal.conTimes = [0, Real.pi, 2 * Real.pi] := rfl

/-! ### Claim theorems -/

/-- C3: the claim states the bisection search is bounded by an iteration
ceiling (about 200 iterations) with non-convergence surfaced as a fatal
error.  The source has no such ceiling: `iterationNum` (line 317) is
incremented but never read, and the only exit from the `while` loop at line
316 is the tolerance check, so the loop is bounded by nothing.  This theorem
documents the absence of the ceiling in the code: the loop's result is
independent of the value of the iteration counter, for any counter values
and any bracket. -/
theorem claim_C3 (amps times : List ℝ) (wn p : ℝ) :
    ∀ (fuel i j : ℕ) (l u : ℝ),
      relax_loop amps times wn p fuel i l u = relax_loop amps times wn p fuel j l u := by
  intro fuel
  induction fuel with
  | zero =>
      intro i j l u
      rw [relax_loop_zero, relax_loop_zero]
  | succ f ih =>
      intro i j l u
      rw [relax_loop_succ, relax_loop_succ]
      by_cases hc : |rvVal amps times wn 0 ((u - l) / 2 + l) - p| ≤ 1 / 10000
      · rw [if_pos hc, if_pos hc]
      · rw [if_neg hc, if_neg hc]
        by_cases hgt : rvVal amps times wn 0 ((u - l) / 2 + l) > p
        · rw [if_pos hgt, if_pos hgt]
          exact ih _ _ _ _
        · rw [if_neg hgt, if_neg hgt]
          exact ih _ _ _ _

/-- C9 (amended): after a call to the residual-vibration evaluator the
caller-supplied amplitude vector holds only the first-element addition of
`valueAdded`; the renormalization at line 390 rebinds a local name to a fresh
list and is not visible to the caller. -/
theorem claim_C9 (amps times : List ℝ) (wn zeta v : ℝ) :
    (residual_vibration amps times wn zeta v).1 = addFirst amps v := rfl

/-- C9 counterexample: with caller amplitudes [1/2, 1/2] and valueAdded 1 the
caller's vector afterwards is [3/2, 1/2] (sum 2), not the renormalized
[3/4, 1/4] the claim asserts. -/
theorem claim_C9_counterexample :
    (residual_vibration [1/2, 1/2] [0, Real.pi] 1 0 1).1 = [3/2, 1/2] ∧
      normalize (addFirst [1/2, 1/2] 1) = [3/4, 1/4] ∧
      ([3/2, 1/2] : List ℝ) ≠ [3/4, 1/4] := by
  refine ⟨?_, ?_, ?_⟩
  · show addFirst [1/2, 1/2] 1 = [3/2, 1/2]
    simp only [addFirst]
    norm_num
  · simp only [addFirst, normalize, List.sum_cons, List.sum_nil, List.map_cons, List.map_nil]
    norm_num
  · simp only [ne_eq, List.cons.injEq]
    norm_num

/-- C10: the RM amplitude formula at line 289 divides by `impulseNum - 1`.
For `impulseNum ≥ 2` the divisor is nonzero and `_generate_rm_impulses`
succeeds; `impulseNum = 1` is validated nowhere and hits the division as a
zero division (Python `ZeroDivisionError`), not a parameter-validation
(assertion) failure: `RM(1, s)` raises it for every strength `s`, before the
strength assertion is reached, with the type, strength and impulse count
already overwritten. -/
theorem claim_C10 :
    (∀ (n : ℕ) (T : ℝ), 2 ≤ n →
        ((n : ℝ) - 1 ≠ 0 ∧ generate_rm_impulses n T = .ok (rmAmps n, rmTimes n T))) ∧
      (∀ (s : Shaper) (sf : ℝ) (fuel : ℕ),
        RMrun s 1 sf fuel =
          .raised .zeroDivisionError
            { s with shaperType := "RM" ++ toString 1, strengthFrac := some sf,
                     conNum := 1 }) := by
  constructor
  · intro n T hn
    constructor
    · have h2 : (2:ℝ) ≤ (n:ℝ) := by exact_mod_cast hn
      linarith
    · unfold generate_rm_impulses
      rw [if_neg (by omega), if_neg (by omega)]
  · intro s sf fuel
    rfl

/-- C10 witness: the `impulseNum = 3` instance of the first conjunct. -/
theorem claim_C10_witness :
    2 ≤ 3 ∧ ((3 : ℝ) - 1 ≠ 0 ∧
      generate_rm_impulses 3 (2 * Real.pi) = .ok (rmAmps 3, rmTimes 3 (2 * Real.pi))) :=
  ⟨by norm_num, claim_C10.1 3 (2 * Real.pi) (by norm_num)⟩

/-- C6: on the model wn = 1 rad/s, zeta = 0, fps = 100, the call `ZV(1)`
returns normally, stores continuous amplitudes [1/2, 1/2] at times [0, pi],
and the residual-vibration evaluator on that stored sequence at probe
frequency 1 with damping 0 is within 1e-6 of 0 (it is exactly 0). -/
theorem claim_C6 :
    (ZVrun sigmaOne 1 1).isOk = true ∧
      (ZVrun sigmaOne 1 1).state.conAmps = [1/2, 1/2] ∧
      (ZVrun sigmaOne 1 1).state.conTimes = [0, Real.pi] ∧
      |rvVal (ZVrun sigmaOne 1 1).state.conAmps ((ZVrun sigmaOne 1 1).state.conTimes)
          1 0 0 - 0| ≤ 1 / 1000000 := by
  rw [zv_run_eval]
  refine ⟨rfl, zvFinal_conAmps, zvFinal_conTimes, ?_⟩
  show |rvVal zvFinal.conAmps zvFinal.conTimes 1 0 0 - 0| ≤ 1 / 1000000
  rw [zvFinal_conAmps, zvFinal_conTimes, rvZV0]
  norm_num

/-- C2 (amended): whenever `_relax_vibration` returns normally with target
strength `s` on a continuous sequence whose evaluator value at the modeled
frequency with zero damping is 0 (true of every family base pattern), the
sequence it returns evaluates at the modeled frequency with zero damping to
within 1e-4 of `1 - s`.  As stated the claim is false, because the stored
sequence is the damping-scaled one and because EI passes the relaxer
`max(0, strengthFraction - tolerableVib)` rather than `strengthFraction`;
see the counterexample. -/
theorem claim_C2 (s : Shaper) (sf : ℝ) (fuel : ℕ) (s2 : Shaper)
    (hz : rvVal s.conAmps s.conTimes s.wn 0 0 = 0)
    (h : relax_vibration s sf fuel = .ok s2) :
    |rvVal s2.conAmps s2.conTimes s.wn 0 0 - (1 - sf)| ≤ 1 / 10000 := by
  obtain ⟨hval, hcase⟩ := relax_vibration_ok s sf fuel s2 h
  rcases hcase with ⟨rfl, rfl⟩ | ⟨rfl, rfl⟩ | ⟨h0, h1, m, hm, hloop, rfl⟩
  · rw [hz]
    norm_num
  · show |rvVal [1] [0] s.wn 0 0 - (1 - 0)| ≤ 1 / 10000
    rw [rvVal_one]
    norm_num
  · show |rvVal (normalize (addFirst s.conAmps m)) s.conTimes s.wn 0 0 - (1 - sf)| ≤ 1 / 10000
    rw [rvVal_normalize_addFirst]
    exact relax_loop_sound _ _ _ _ fuel 0 0 1000 m hloop

/-- C2 witness: the full-strength relaxation of the ZV base pattern on the
wn = 1, zeta = 0 model satisfies both hypotheses and the bound. -/
theorem claim_C2_witness :
    rvVal sigmaZVbase.conAmps sigmaZVbase.conTimes sigmaZVbase.wn 0 0 = 0 ∧
      relax_vibration sigmaZVbase 1 1 = .ok sigmaZVbase ∧
      |rvVal sigmaZVbase.conAmps sigmaZVbase.conTimes sigmaZVbase.wn 0 0 - (1 - 1)| ≤
        1 / 10000 := by
  have hz : rvVal sigmaZVbase.conAmps sigmaZVbase.conTimes sigmaZVbase.wn 0 0 = 0 := by
    show rvVal [1/2, 1/2] [0, Real.pi] 1 0 0 = 0
    exact rvZV0
  have h : relax_vibration sigmaZVbase 1 1 = .ok sigmaZVbase := relax_vibration_full _ _
  exact ⟨hz, h, claim_C2 sigmaZVbase 1 1 sigmaZVbase hz h⟩

/-- C2 counterexample: `EI(1/20, 1/2)` on the zeta = 0 model `sigmaOne`
returns normally, yet the evaluator on the stored continuous sequence at the
modeled frequency and modeled damping is about 0.55, not within 1e-4 of
`1 - 1/2 = 0.5` (EI relaxes with target `max(0, 1/2 - 1/20) = 9/20`). -/
theorem claim_C2_counterexample :
    (EIrun sigmaOne (1/20) (1/2) 30).isOk = true ∧
      ¬(|rvVal (EIrun sigmaOne (1/20) (1/2) 30).state.conAmps
            ((EIrun sigmaOne (1/20) (1/2) 30).state.conTimes) sigmaOne.wn sigmaOne.zeta 0 -
          (1 - 1/2)| ≤ 1 / 10000) := by
  rw [ei_run_eval]
  refine ⟨rfl, ?_⟩
  show ¬(|rvVal eiFinal.conAmps eiFinal.conTimes 1 0 0 - (1 - 1/2)| ≤ 1 / 10000)
  have hm : mhatEI = 145625 / 131072 := rfl
  rw [eiFinal_conAmps, eiFinal_conTimes, rvVal_normalize_addFirst,
    rvEI mhatEI (by rw [hm]; norm_num), hm, abs_le]
  norm_num

lemma roundNE_zero : roundNE 0 = 0 := by
  unfold roundNE
  norm_num

/-- A pipeline call preserves `dt` and the sampling rate. -/
lemma pipeline_dtfps (s1 : Shaper) (sf : ℝ) (fuel : ℕ) (s3 : Shaper)
    (h : pipeline s1 sf fuel = .ok s3) : s3.dt = s1.dt ∧ s3.fps = s1.fps := by
  obtain ⟨s2, hr, hd⟩ := pipeline_ok s1 sf fuel s3 h
  have hf := digitizePart_ok_fields _ _ hd
  obtain ⟨_, hcase⟩ := relax_vibration_ok s1 sf fuel s2 hr
  rcases hcase with ⟨_, rfl⟩ | ⟨_, rfl⟩ | ⟨_, _, m, _, _, rfl⟩
  · exact ⟨hf.2.2.2.1, hf.2.2.1⟩
  · exact ⟨hf.2.2.2.1, hf.2.2.1⟩
  · exact ⟨hf.2.2.2.1, hf.2.2.1⟩

lemma dt_inv_of (s s3 : Shaper) (hdt : s.dt = 1 / s.fps) (h1 : s3.dt = s.dt)
    (h2 : s3.fps = s.fps) : s3.dt = 1 / s3.fps := by
  rw [h1, h2, hdt]

/-- C5: on any model whose `dt` is the reciprocal of its sampling rate (as
set by the constructor), every generator call that returns normally stores
digital frame indices equal to the stored digital times divided by the
model's own `dt` and rounded (rounding half to even, as `np.round`), and
leaves `dt = 1/samplingRate` intact.  `RM3`, `RM4`, `RM5` are definitionally
the `RM` conjunct at 3, 4, 5. -/
theorem claim_C5 (s : Shaper) (hdt : s.dt = 1 / s.fps) :
    (∀ s3, OFFrun s = .ok s3 → FrameInv s3) ∧
    (∀ seq s3, CUSTOMrun s seq = .ok s3 → FrameInv s3) ∧
    (∀ sf fuel s3, ZVrun s sf fuel = .ok s3 → FrameInv s3) ∧
    (∀ sf fuel s3, ZVDrun s sf fuel = .ok s3 → FrameInv s3) ∧
    (∀ sf fuel s3, ZVDDrun s sf fuel = .ok s3 → FrameInv s3) ∧
    (∀ sf fuel s3, ZVDDDrun s sf fuel = .ok s3 → FrameInv s3) ∧
    (∀ na sf fuel s3, SNArun s na sf fuel = .ok s3 → FrameInv s3) ∧
    (∀ v sf fuel s3, EIrun s v sf fuel = .ok s3 → FrameInv s3) ∧
    (∀ n sf fuel s3, RMrun s n sf fuel = .ok s3 → FrameInv s3) ∧
    (∀ s3, UMZVrun s = .ok s3 → FrameInv s3) ∧
    (∀ s3, UMZVDrun s = .ok s3 → FrameInv s3) := by
  have hpip : ∀ (s1 : Shaper) (sf : ℝ) (fuel : ℕ) (s3 : Shaper),
      s1.dt = s.dt → s1.fps = s.fps → pipeline s1 sf fuel = .ok s3 → FrameInv s3 := by
    intro s1 sf fuel s3 h1 h2 h
    obtain ⟨hfr, hdt3⟩ := pipeline_frames s1 sf fuel s3 h
    obtain ⟨hdt4, hfps4⟩ := pipeline_dtfps s1 sf fuel s3 h
    exact ⟨hfr, dt_inv_of s s3 hdt (hdt4.trans h1) (hfps4.trans h2)⟩
  have hdig : ∀ (s1 : Shaper) (s3 : Shaper),
      s1.dt = s.dt → s1.fps = s.fps → digitizePart s1 = .ok s3 → FrameInv s3 := by
    intro s1 s3 h1 h2 h
    have hf := digitizePart_ok_fields _ _ h
    exact ⟨digitizePart_frames _ _ h,
      dt_inv_of s s3 hdt (hf.2.2.2.1.trans h1) (hf.2.2.1.trans h2)⟩
  refine ⟨?_, ?_, ?_, ?_, ?_, ?_, ?_, ?_, ?_, ?_, ?_⟩
  · intro s3 h
    obtain rfl := (Outcome.ok.inj h).symm
    constructor
    · show ([0] : List ℤ) = ([0] : List ℝ).map (fun k => roundNE (k / s.dt))
      simp [zero_div, roundNE_zero]
    · exact hdt
  · intro seq s3 h
    unfold CUSTOMrun at h
    by_cases hpar : seq.length % 2 ≠ 0
    · rw [if_pos hpar] at h
      exact Outcome.noConfusion h
    · rw [if_neg hpar] at h
      refine hdig _ _ ?_ ?_ h <;> rfl
  · intro sf fuel s3 h
    refine hpip _ _ _ _ ?_ ?_ h <;> rfl
  · intro sf fuel s3 h
    refine hpip _ _ _ _ ?_ ?_ h <;> rfl
  · intro sf fuel s3 h
    refine hpip _ _ _ _ ?_ ?_ h <;> rfl
  · intro sf fuel s3 h
    refine hpip _ _ _ _ ?_ ?_ h <;> rfl
  · intro na sf fuel s3 h
    unfold SNArun at h
    by_cases hna : ¬(0 ≤ na ∧ na ≤ 1)
    · rw [if_pos hna] at h
      exact Outcome.noConfusion h
    · rw [if_neg hna] at h
      refine hpip _ _ _ _ ?_ ?_ h <;> rfl
  · intro v sf fuel s3 h
    unfold EIrun at h
    by_cases hv : ¬(0 ≤ v ∧ v ≤ 1)
    · rw [if_pos hv] at h
      exact Outcome.noConfusion h
    · rw [if_neg hv] at h
      refine hpip _ _ _ _ ?_ ?_ h <;> rfl
  · intro n sf fuel s3 h
    unfold RMrun at h
    cases hg : generate_rm_impulses n s.Tn with
    | error e =>
        rw [hg] at h
        exact Outcome.noConfusion h
    | ok out =>
        rw [hg] at h
        refine hpip _ _ _ _ ?_ ?_ h <;> rfl
  · intro s3 h
    unfold UMZVrun at h
    refine hdig _ _ ?_ ?_ h <;> rfl
  · intro s3 h
    unfold UMZVDrun at h
    refine hdig _ _ ?_ ?_ h <;> rfl

/-- C5 witness: the OFF conjunct instantiated on the concrete model
`sigmaOne`. -/
theorem claim_C5_witness :
    sigmaOne.dt = 1 / sigmaOne.fps ∧ OFFrun sigmaOne = .ok (applyOFF sigmaOne) ∧
      FrameInv (applyOFF sigmaOne) := by
  have h1 : sigmaOne.dt = 1 / sigmaOne.fps := rfl
  exact ⟨h1, rfl, (claim_C5 sigmaOne h1).1 (applyOFF sigmaOne) rfl⟩

/-- With target strength 0 the relaxer resets the model to OFF, and on an
undamped model the subsequent damping scaling is the identity on the OFF
sequence, so the pipeline reduces to digitizing the OFF state. -/
lemma pipeline_zero_eval (s1 : Shaper) (hz : s1.zeta = 0) (fuel : ℕ) :
    pipeline s1 0 fuel = digitizePart (applyOFF s1) := by
  unfold pipeline
  rw [relax_vibration_off]
  show digitizePart (scale_for_damping (applyOFF s1)) = digitizePart (applyOFF s1)
  rw [scale_for_damping_zeta0 _ (show (applyOFF s1).zeta = 0 from hz) (by simp [applyOFF])]
  rw [show normalize ((applyOFF s1).conAmps) = (applyOFF s1).conAmps by
    show normalize [1] = [1]
    simp [normalize]]

/-- C8 (amended): every strength-accepting generator that returns normally
with a strictly positive relaxation target reports its family tag and the
passed strength; with target 0 (strength 0, or for EI a strength not above
the tolerable vibration) the relaxer resets the model to OFF instead, see
the counterexample.  For EI the relaxer target is
`max(0, strengthFraction - tolerableVib)`, hence the `v < sf` hypothesis.
`RM3`, `RM4`, `RM5` are definitionally the `RM` conjunct at 3, 4, 5. -/
theorem claim_C8 (s : Shaper) :
    (∀ sf fuel s3, 0 < sf → ZVrun s sf fuel = .ok s3 →
        s3.shaperType = "ZV" ∧ s3.strengthFrac = some sf) ∧
    (∀ sf fuel s3, 0 < sf → ZVDrun s sf fuel = .ok s3 →
        s3.shaperType = "ZVD" ∧ s3.strengthFrac = some sf) ∧
    (∀ sf fuel s3, 0 < sf → ZVDDrun s sf fuel = .ok s3 →
        s3.shaperType = "ZVDD" ∧ s3.strengthFrac = some sf) ∧
    (∀ sf fuel s3, 0 < sf → ZVDDDrun s sf fuel = .ok s3 →
        s3.shaperType = "ZVDDD" ∧ s3.strengthFrac = some sf) ∧
    (∀ na sf fuel s3, 0 < sf → SNArun s na sf fuel = .ok s3 →
        s3.shaperType = "SNA" ∧ s3.strengthFrac = some sf) ∧
    (∀ v sf fuel s3, v < sf → EIrun s v sf fuel = .ok s3 →
        s3.shaperType = "EI" ∧ s3.strengthFrac = some sf) ∧
    (∀ n sf fuel s3, 0 < sf → RMrun s n sf fuel = .ok s3 →
        s3.shaperType = "RM" ++ toString n ∧ s3.strengthFrac = some sf) := by
  refine ⟨?_, ?_, ?_, ?_, ?_, ?_, ?_⟩
  · intro sf fuel s3 hsf h
    unfold ZVrun at h
    obtain ⟨hty, hstr, _⟩ := pipeline_preserve _ _ _ _ h hsf
    exact ⟨hty, hstr⟩
  · intro sf fuel s3 hsf h
    unfold ZVDrun at h
    obtain ⟨hty, hstr, _⟩ := pipeline_preserve _ _ _ _ h hsf
    exact ⟨hty, hstr⟩
  · intro sf fuel s3 hsf h
    unfold ZVDDrun at h
    obtain ⟨hty, hstr, _⟩ := pipeline_preserve _ _ _ _ h hsf
    exact ⟨hty, hstr⟩
  · intro sf fuel s3 hsf h
    unfold ZVDDDrun at h
    obtain ⟨hty, hstr, _⟩ := pipeline_preserve _ _ _ _ h hsf
    exact ⟨hty, hstr⟩
  · intro na sf fuel s3 hsf h
    unfold SNArun at h
    by_cases hna : ¬(0 ≤ na ∧ na ≤ 1)
    · rw [if_pos hna] at h
      exact Outcome.noConfusion h
    · rw [if_neg hna] at h
      obtain ⟨hty, hstr, _⟩ := pipeline_preserve _ _ _ _ h hsf
      exact ⟨hty, hstr⟩
  · intro v sf fuel s3 hv h
    unfold EIrun at h
    by_cases hvr : ¬(0 ≤ v ∧ v ≤ 1)
    · rw [if_pos hvr] at h
      exact Outcome.noConfusion h
    · rw [if_neg hvr] at h
      have hpos : 0 < max 0 (sf - v) :=
        lt_of_lt_of_le (by linarith) (le_max_right 0 (sf - v))
      obtain ⟨hty, hstr, _⟩ := pipeline_preserve _ _ _ _ h hpos
      exact ⟨hty, hstr⟩
  · intro n sf fuel s3 hsf h
    unfold RMrun at h
    cases hg : generate_rm_impulses n s.Tn with
    | error e =>
        rw [hg] at h
        exact Outcome.noConfusion h
    | ok out =>
        rw [hg] at h
        obtain ⟨hty, hstr, _⟩ := pipeline_preserve _ _ _ _ h hsf
        exact ⟨hty, hstr⟩

/-- C8 witness: the ZV conjunct at strength 1 on `sigmaOne`. -/
theorem claim_C8_witness :
    (0:ℝ) < 1 ∧ ZVrun sigmaOne 1 1 = .ok zvFinal ∧
      zvFinal.shaperType = "ZV" ∧ zvFinal.strengthFrac = some 1 := by
  refine ⟨by norm_num, zv_run_eval, ?_⟩
  exact (claim_C8 sigmaOne).1 1 1 zvFinal (by norm_num) zv_run_eval

/-- C8 counterexample: `ZV(0)` on `sigmaOne` returns normally but afterwards
the model reports shaperType "OFF" (not "ZV") and strengthFraction NaN (not
0): the relaxer's `partialFrac == 1` branch calls `OFF()`. -/
theorem claim_C8_counterexample :
    (ZVrun sigmaOne 0 1).isOk = true ∧
      (ZVrun sigmaOne 0 1).state.shaperType = "OFF" ∧
      (ZVrun sigmaOne 0 1).state.strengthFrac = none ∧
      ("OFF" : String) ≠ "ZV" := by
  unfold ZVrun
  rw [pipeline_zero_eval]
  · rw [digitizePart_cons _ 1 0 [] [] rfl rfl]
    exact ⟨rfl, rfl, rfl, by decide⟩
  · rfl

/-- An out-of-range strength makes `_relax_vibration` raise immediately,
leaving the state it was handed unchanged. -/
lemma relax_vibration_raises (s : Shaper) (sf : ℝ) (fuel : ℕ)
    (h : ¬(0 ≤ sf ∧ sf ≤ 1)) :
    relax_vibration s sf fuel = .raised .assertionError s := by
  unfold relax_vibration
  rw [if_pos h]

/-- A pipeline call with an out-of-range strength raises, carrying the state
it was handed. -/
lemma pipeline_raises (s1 : Shaper) (sf : ℝ) (fuel : ℕ)
    (h : ¬(0 ≤ sf ∧ sf ≤ 1)) :
    pipeline s1 sf fuel = .raised .assertionError s1 := by
  unfold pipeline
  rw [relax_vibration_raises s1 sf fuel h]

/-- For `impulseNum ≥ 2`, `_generate_rm_impulses` succeeds. -/
lemma generate_rm_ok (n : ℕ) (T : ℝ) (hn : 2 ≤ n) :
    generate_rm_impulses n T = .ok (rmAmps n, rmTimes n T) := by
  unfold generate_rm_impulses
  rw [if_neg (by omega), if_neg (by omega)]

/-- C4 (amended): only SNA's `negativeAmp` and EI's `tolerableVib` checks
fail before any mutation.  CUSTOM's odd-length assertion fires after
`shaperType` and `strengthFraction` are overwritten, and the strength
assertion of ZV/ZVD/ZVDD/ZVDDD/SNA/EI/RM fires after `shaperType`,
`strengthFraction`, the impulse count and the base continuous sequence are
overwritten; only the digital sequences (and, for CUSTOM, the continuous
sequences) of the previous design survive a validation failure.  Each
conjunct exhibits the exact post-raise state. -/
theorem claim_C4 (s : Shaper) :
    (∀ seq : List ℝ, seq.length % 2 = 1 →
        CUSTOMrun s seq =
          .raised .assertionError { s with shaperType := "CUSTOM", strengthFrac := none }) ∧
    (∀ na sf fuel, ¬(0 ≤ na ∧ na ≤ 1) →
        SNArun s na sf fuel = .raised .assertionError s) ∧
    (∀ v sf fuel, ¬(0 ≤ v ∧ v ≤ 1) →
        EIrun s v sf fuel = .raised .assertionError s) ∧
    (∀ sf fuel, ¬(0 ≤ sf ∧ sf ≤ 1) →
        ZVrun s sf fuel =
          .raised .assertionError
            { s with shaperType := "ZV", strengthFrac := some sf, conNum := 2,
                     conAmps := [0.5, 0.5], conTimes := [0, 0.5 * s.Tn] }) ∧
    (∀ sf fuel, ¬(0 ≤ sf ∧ sf ≤ 1) →
        ZVDrun s sf fuel =
          .raised .assertionError
            { s with shaperType := "ZVD", strengthFrac := some sf, conNum := 3,
                     conAmps := [0.25, 0.5, 0.25], conTimes := [0, 0.5 * s.Tn, s.Tn] }) ∧
    (∀ sf fuel, ¬(0 ≤ sf ∧ sf ≤ 1) →
        ZVDDrun s sf fuel =
          .raised .assertionError
            { s with shaperType := "ZVDD", strengthFrac := some sf, conNum := 4,
                     conAmps := [0.125, 0.375, 0.375, 0.125],
                     conTimes := [0, 0.5 * s.Tn, s.Tn, 1.5 * s.Tn] }) ∧
    (∀ sf fuel, ¬(0 ≤ sf ∧ sf ≤ 1) →
        ZVDDDrun s sf fuel =
          .raised .assertionError
            { s with shaperType := "ZVDDD", strengthFrac := some sf, conNum := 5,
                     conAmps := [0.0625, 0.25, 0.375, 0.25, 0.0625],
                     conTimes := [0, 0.5 * s.Tn, s.Tn, 1.5 * s.Tn, 2.0 * s.Tn] }) ∧
    (∀ na sf fuel, (0 ≤ na ∧ na ≤ 1) → ¬(0 ≤ sf ∧ sf ≤ 1) →
        SNArun s na sf fuel =
          .raised .assertionError
            { s with shaperType := "SNA", strengthFrac := some sf, conNum := 3,
                     conAmps := [(1 - -1 * na) / 2, -1 * na, (1 - -1 * na) / 2],
                     conTimes := [0,
                       (1 / s.wn) * Real.arccos (-(-1 * na) / (2 * ((1 - -1 * na) / 2))),
                       (1 / s.wn) *
                         Real.arccos ((-1 * na) ^ 2 / (2 * ((1 - -1 * na) / 2) ^ 2) - 1)] }) ∧
    (∀ v sf fuel, (0 ≤ v ∧ v ≤ 1) → 1 < sf - v →
        EIrun s v sf fuel =
          .raised .assertionError
            { s with shaperType := "EI", strengthFrac := some sf, conNum := 3,
                     conAmps := [0.25 * (1 + v), 0.5 * (1 - v), 0.25 * (1 + v)],
                     conTimes := [0, 0.5 * s.Tn, s.Tn] }) ∧
    (∀ n sf fuel, 2 ≤ n → ¬(0 ≤ sf ∧ sf ≤ 1) →
        RMrun s n sf fuel =
          .raised .assertionError
            { s with shaperType := "RM" ++ toString n, strengthFrac := some sf, conNum := n,
                     conAmps := rmAmps n, conTimes := rmTimes n s.Tn }) := by
  refine ⟨?_, ?_, ?_, ?_, ?_, ?_, ?_, ?_, ?_, ?_⟩
  · intro seq hodd
    unfold CUSTOMrun
    rw [if_pos (by omega)]
  · intro na sf fuel hna
    unfold SNArun
    rw [if_pos hna]
  · intro v sf fuel hv
    unfold EIrun
    rw [if_pos hv]
  · intro sf fuel hsf
    unfold ZVrun
    exact pipeline_raises _ _ _ hsf
  · intro sf fuel hsf
    unfold ZVDrun
    exact pipeline_raises _ _ _ hsf
  · intro sf fuel hsf
    unfold ZVDDrun
    exact pipeline_raises _ _ _ hsf
  · intro sf fuel hsf
    unfold ZVDDDrun
    exact pipeline_raises _ _ _ hsf
  · intro na sf fuel hna hsf
    unfold SNArun
    rw [if_neg (not_not_intro hna)]
    exact pipeline_raises _ _ _ hsf
  · intro v sf fuel hv hsf
    unfold EIrun
    rw [if_neg (not_not_intro hv)]
    refine pipeline_raises _ _ _ ?_
    rintro ⟨-, h2⟩
    have hle : sf - v ≤ max 0 (sf - v) := le_max_right 0 (sf - v)
    linarith
  · intro n sf fuel hn hsf
    unfold RMrun
    rw [generate_rm_ok n s.Tn hn]
    exact pipeline_raises _ _ _ hsf

/-- C4 witness: SNA's negativeAmp validation on `sigmaOne` with
negativeAmp 2 fails with the model fully intact. -/
theorem claim_C4_witness :
    ¬((0:ℝ) ≤ 2 ∧ (2:ℝ) ≤ 1) ∧
      SNArun sigmaOne 2 1 1 = .raised .assertionError sigmaOne :=
  ⟨by norm_num, (claim_C4 sigmaOne).2.1 2 1 1 (by norm_num)⟩

/-- C4 counterexample: `CUSTOM([1, 2, 3])` (odd length) on the fresh model
`sigmaOne` raises, but the stored shaperType has already been overwritten to
"CUSTOM" (the previous value was "OFF"), so the previous state is not left
intact. -/
theorem claim_C4_counterexample :
    (CUSTOMrun sigmaOne [1, 2, 3]).isRaised = true ∧
      (CUSTOMrun sigmaOne [1, 2, 3]).state.shaperType = "CUSTOM" ∧
      sigmaOne.shaperType = "OFF" ∧ ("CUSTOM" : String) ≠ "OFF" := by
  unfold CUSTOMrun
  rw [if_pos (by simp : ¬([1, 2, 3] : List ℝ).length % 2 = 0)]
  exact ⟨rfl, rfl, rfl, by decide⟩

/-- When every later impulse time is grid-aligned, the digitization loop
keeps every amplitude and time unchanged. -/
lemma digitize_aligned (wn zeta wd dt : ℝ) :
    ∀ (as ts : List ℝ), as.length = ts.length → (∀ x ∈ ts, realMod x dt = 0) →
      ((as.zip ts).map (fun p => (digStep wn zeta wd dt p.1 p.2).1)).flatten = as ∧
      ((as.zip ts).map (fun p => (digStep wn zeta wd dt p.1 p.2).2)).flatten = ts := by
  intro as
  induction as with
  | nil =>
      intro ts hlen _
      cases ts with
      | nil => simp
      | cons t ts => simp at hlen
  | cons a as ih =>
      intro ts hlen hmod
      cases ts with
      | nil => simp at hlen
      | cons t ts =>
          have hstep : digStep wn zeta wd dt a t = ([a], [t]) := by
            unfold digStep
            rw [if_pos (hmod t (List.mem_cons_self t ts))]
          obtain ⟨ih1, ih2⟩ := ih ts (by simpa using hlen)
            (fun x hx => hmod x (List.mem_cons_of_mem t hx))
          rw [List.zip_cons_cons, List.map_cons, List.map_cons, hstep]
          constructor
          · show ([a] :: (as.zip ts).map (fun p => (digStep wn zeta wd dt p.1 p.2).1)).flatten
              = a :: as
            rw [List.flatten_cons, ih1]
            rfl
          · show ([t] :: (as.zip ts).map (fun p => (digStep wn zeta wd dt p.1 p.2).2)).flatten
              = t :: ts
            rw [List.flatten_cons, ih2]
            rfl

/-- C7 (amended): digitizing a nonempty sequence whose every time is an
exact multiple of `dt` keeps the times, renormalizes the amplitudes, and
adds the rounded frame indices; a single-impulse sequence passes through
with its time kept and its amplitude renormalized to `a / a` (so it is
unchanged only when the amplitude is already 1, as for OFF); see the
counterexample for the renormalization on a single impulse of amplitude
1/2. -/
theorem claim_C7 :
    (∀ (a t wn zeta dt : ℝ) (as ts : List ℝ),
      (a :: as).length = (t :: ts).length → (∀ x ∈ t :: ts, realMod x dt = 0) →
        digitize_shaper (a :: as) (t :: ts) wn zeta dt =
          some ⟨(a :: as).length, normalize (a :: as), t :: ts,
                (t :: ts).map (fun k => roundNE (k / dt))⟩) ∧
    (∀ a t wn zeta dt : ℝ,
      digitize_shaper [a] [t] wn zeta dt =
        some ⟨1, normalize [a], [t], [roundNE (t / dt)]⟩ ∧ normalize [a] = [a / a]) := by
  constructor
  · intro a t wn zeta dt as ts hlen hmod
    obtain ⟨h1, h2⟩ := digitize_aligned wn zeta (wn * Real.sqrt (1 - zeta ^ 2)) dt as ts
      (by simpa using hlen) (fun x hx => hmod x (List.mem_cons_of_mem t hx))
    unfold digitize_shaper digitizeB digitizeT
    dsimp only
    rw [h1, h2]
  · intro a t wn zeta dt
    constructor
    · rfl
    · simp [normalize]

/-- C7 witness: the aligned conjunct on amplitudes [1/2, 1/2] at times
[0, 3] with dt = 1. -/
theorem claim_C7_witness :
    ([(1:ℝ)/2, 1/2].length = [(0:ℝ), 3].length ∧ (∀ x ∈ [(0:ℝ), 3], realMod x 1 = 0)) ∧
      digitize_shaper [1/2, 1/2] [0, 3] 1 0 1 =
        some ⟨[(1:ℝ)/2, 1/2].length, normalize [1/2, 1/2], [0, 3],
              [(0:ℝ), 3].map (fun k => roundNE (k / 1))⟩ := by
  have hlen : ([(1:ℝ)/2, 1/2] : List ℝ).length = ([(0:ℝ), 3] : List ℝ).length := rfl
  have hmod : ∀ x ∈ [(0:ℝ), 3], realMod x 1 = 0 := by
    intro x hx
    rcases List.mem_cons.1 hx with rfl | hx2
    · norm_num [realMod]
    · rcases List.mem_cons.1 hx2 with rfl | hx3
      · norm_num [realMod]
      · simp at hx3
  exact ⟨⟨hlen, hmod⟩, claim_C7.1 (1/2) 0 1 0 1 [1/2] [3] hlen hmod⟩

/-- C7 counterexample: digitizing the single impulse of amplitude 1/2 at
time 0 stores amplitude 1, not 1/2: the sequence does not pass through
unchanged. -/
theorem claim_C7_counterexample :
    ((digitize_shaper [1/2] [0] 1 0 (1/100)).map DigOut.amps) = some [1] ∧
      ([1] : List ℝ) ≠ [1/2] := by
  constructor
  · show some (DigOut.amps ⟨1, normalize [1/2], [0], [roundNE (0 / (1/100))]⟩) = some [1]
    rw [show DigOut.amps ⟨1, normalize [(1:ℝ)/2], [0], [roundNE (0 / (1/100))]⟩ =
        normalize [1/2] from rfl]
    rw [show normalize [(1:ℝ)/2] = [1] by simp [normalize]]
  · intro h
    simp only [List.cons.injEq, and_true] at h
    norm_num at h

lemma modLast_cons2 (g : ℝ → ℝ) (a b : ℝ) (l : List ℝ) :
    modLast g (a :: b :: l) = a :: modLast g (b :: l) := rfl

lemma modLast_length (g : ℝ → ℝ) : ∀ l : List ℝ, (modLast g l).length = l.length := by
  intro l
  induction l with
  | nil => rfl
  | cons a l ih =>
      cases l with
      | nil => rfl
      | cons b l2 =>
          rw [modLast_cons2, List.length_cons, List.length_cons, ih]

lemma mem_modLast (g : ℝ → ℝ) : ∀ (l : List ℝ) (x : ℝ),
    x ∈ modLast g l → x ∈ l ∨ ∃ y ∈ l, x = g y := by
  intro l
  induction l with
  | nil => intro x hx; exact absurd hx (by simp [modLast])
  | cons a l ih =>
      intro x hx
      cases l with
      | nil =>
          rcases List.mem_singleton.1 hx with rfl
          exact Or.inr ⟨a, List.mem_singleton_self a, rfl⟩
      | cons b l2 =>
          rw [modLast_cons2] at hx
          rcases List.mem_cons.1 hx with rfl | hx2
          · exact Or.inl (List.mem_cons_self x _)
          · rcases ih x hx2 with h1 | ⟨y, hy, rfl⟩
            · exact Or.inl (List.mem_cons_of_mem a h1)
            · exact Or.inr ⟨y, List.mem_cons_of_mem a hy, rfl⟩

lemma rmAmps_two : rmAmps 2 = [1/2, 1/2] := by
  have hr : rmRaw 2 = [(-1 : ℝ) ^ (0 + 1) * (1 / ((2:ℕ) - 1 : ℝ)),
      (-1 : ℝ) ^ (1 + 1) * (1 / ((2:ℕ) - 1 : ℝ))] := by
    unfold rmRaw
    rfl
  unfold rmAmps
  rw [hr]
  show modLast (fun a => 0.5 * a)
      [0.5 * ((-1 : ℝ) ^ (0 + 1) * (1 / ((2:ℕ) - 1 : ℝ))) + 1,
       (-1 : ℝ) ^ (1 + 1) * (1 / ((2:ℕ) - 1 : ℝ))] = [1/2, 1/2]
  norm_num [modLast]

/-- For `n ≥ 3` the RM amplitude list starts with `1 - c/2` and `c`, where
`c = 1/(n-1)`, followed by `n - 2` entries all of magnitude at most `c`. -/
lemma rmAmps_structure (n : ℕ) (hn : 3 ≤ n) :
    ∃ rest : List ℝ, rmAmps n = (1 - (1/((n:ℝ)-1))/2) :: (1/((n:ℝ)-1)) :: rest ∧
      (∀ y ∈ rest, |y| ≤ 1/((n:ℝ)-1)) ∧ rest.length = n - 2 := by
  obtain ⟨m, rfl⟩ : ∃ m, n = m + 3 := ⟨n - 3, by omega⟩
  have hc : (0:ℝ) < 1 / ((m + 3 : ℕ) - 1 : ℝ) := by
    have : (2:ℝ) ≤ ((m + 3 : ℕ) : ℝ) - 1 := by
      push_cast
      linarith [Nat.cast_nonneg (α := ℝ) m]
    positivity
  set c : ℝ := 1 / (((m + 3 : ℕ) : ℝ) - 1) with hcdef
  have hrange : List.range (m + 3) = 0 :: 1 :: ((List.range (m + 1)).map
      (fun k => Nat.succ (Nat.succ k))) := by
    rw [List.range_succ_eq_map, List.range_succ_eq_map, List.map_cons, List.map_map]
    rfl
  have hm : rmRaw (m + 3) = ((-1 : ℝ) ^ (0 + 1) * c) :: ((-1 : ℝ) ^ (1 + 1) * c) ::
      ((List.range (m + 1)).map
        (fun k => (-1 : ℝ) ^ (Nat.succ (Nat.succ k) + 1) * c)) := by
    unfold rmRaw
    rw [hrange, List.map_cons, List.map_cons, List.map_map]
    rfl
  have hmne : ((List.range (m + 1)).map
      (fun k => (-1 : ℝ) ^ (Nat.succ (Nat.succ k) + 1) * c)) ≠ [] := by
    simp [List.range_succ_eq_map]
  obtain ⟨y, ys, hys⟩ := List.exists_cons_of_ne_nil hmne
  refine ⟨modLast (fun a => 0.5 * a) (y :: ys), ?_, ?_, ?_⟩
  · unfold rmAmps
    rw [hm, hys]
    show modLast (fun a => 0.5 * a)
        ((0.5 * ((-1 : ℝ) ^ (0 + 1) * c) + 1) :: ((-1 : ℝ) ^ (1 + 1) * c) :: y :: ys) =
      (1 - c / 2) :: c :: modLast (fun a => 0.5 * a) (y :: ys)
    rw [modLast_cons2, modLast_cons2]
    congr 1
    · ring
    · congr 1
      ring
  · intro x hx
    have hmem : ∀ u ∈ (y :: ys), |u| ≤ c := by
      intro u hu
      rw [← hys] at hu
      obtain ⟨k, _, rfl⟩ := List.mem_map.1 hu
      rw [abs_mul, abs_pow, abs_neg, abs_one, one_pow, one_mul]
      exact le_of_eq (abs_of_pos hc)
    rcases mem_modLast _ _ _ hx with h1 | ⟨u, hu, rfl⟩
    · exact hmem x h1
    · have := hmem u hu
      rw [abs_mul]
      calc |(0.5:ℝ)| * |u| ≤ 1 * |u| := by
            apply mul_le_mul_of_nonneg_right _ (abs_nonneg u)
            rw [abs_of_pos]
            all_goals norm_num
        _ = |u| := one_mul _
        _ ≤ c := this
  · rw [modLast_length]
    have : (y :: ys).length = m + 1 := by
      rw [← hys]
      simp
    omega

/-- For `n ≥ 3` and a nonnegative period the RM time list starts at 0 and
stays nonnegative. -/
lemma rmTimes_structure (n : ℕ) (hn : 3 ≤ n) (Tn : ℝ) (hTn : 0 ≤ Tn) :
    ∃ (t1 : ℝ) (Ts : List ℝ), rmTimes n Tn = 0 :: t1 :: Ts ∧ 0 ≤ t1 ∧
      ∀ t ∈ Ts, 0 ≤ t := by
  obtain ⟨m, rfl⟩ : ∃ m, n = m + 3 := ⟨n - 3, by omega⟩
  have hrange : List.range (m + 3) = 0 :: 1 :: ((List.range (m + 1)).map
      (fun k => Nat.succ (Nat.succ k))) := by
    rw [List.range_succ_eq_map, List.range_succ_eq_map, List.map_cons, List.map_map]
    rfl
  refine ⟨0.5 * ((1:ℕ):ℝ) * Tn, (List.range (m + 1)).map
      (fun k => 0.5 * ((Nat.succ (Nat.succ k) : ℕ) : ℝ) * Tn), ?_, ?_, ?_⟩
  · unfold rmTimes
    rw [hrange, List.map_cons, List.map_cons, List.map_map]
    have h0 : (0.5:ℝ) * ((0:ℕ):ℝ) * Tn = 0 := by norm_num
    rw [h0]
    rfl
  · positivity
  · intro t ht
    obtain ⟨k, _, rfl⟩ := List.mem_map.1 ht
    positivity

lemma zip_exp_sum_map_div (z w S : ℝ) :
    ∀ (L T : List ℝ),
      (((L.map (fun x => x / S)).zip T).map (fun p => p.1 * Real.exp (-z * w * p.2))).sum =
        ((L.zip T).map (fun p => p.1 * Real.exp (-z * w * p.2))).sum / S := by
  intro L
  induction L with
  | nil => intro T; simp
  | cons a L ih =>
      intro T
      cases T with
      | nil => simp
      | cons t T =>
          rw [List.map_cons, List.zip_cons_cons, List.zip_cons_cons, List.map_cons,
            List.map_cons, List.sum_cons, List.sum_cons, ih T, add_div,
            div_mul_eq_mul_div]

/-- The decay-weighted sum of a list headed by a large positive entry at time
0 and a nonnegative entry, whose remaining entries are bounded by `c`, is
positive. -/
lemma rm_weighted_pos (z w c x a1 t1 : ℝ) (rest T1 : List ℝ)
    (hz : 0 ≤ z) (hc : 0 ≤ c)
    (hxgt : c * rest.length < x) (ha1 : 0 ≤ a1)
    (hrest : ∀ y ∈ rest, |y| ≤ c) (hT1 : ∀ t ∈ T1, 0 ≤ z * w * t) :
    0 < (((x :: a1 :: rest).zip (0 :: t1 :: T1)).map
        (fun p => p.1 * Real.exp (-z * w * p.2))).sum := by
  rw [List.zip_cons_cons, List.zip_cons_cons, List.map_cons, List.map_cons,
    List.sum_cons, List.sum_cons]
  have h0 : Real.exp (-z * w * 0) = 1 := by
    rw [mul_zero, Real.exp_zero]
  have h1 : 0 ≤ a1 * Real.exp (-z * w * t1) := mul_nonneg ha1 (Real.exp_pos _).le
  have h2 := zip_exp_sum_ge z w c hc rest T1 hrest hT1
  rw [h0, mul_one]
  linarith

/-- Every state the relaxer can produce from the RM base pattern
(`impulseNum ≥ 2`) hands the damping scaler a list with positive
decay-weighted sum. -/
lemma relax_good_rm (s1 : Shaper) (sf : ℝ) (fuel : ℕ) (n : ℕ) (hn : 2 ≤ n)
    (hca : s1.conAmps = rmAmps n) (hct : s1.conTimes = rmTimes n s1.Tn)
    (hz0 : 0 ≤ s1.zeta) (hz1 : s1.zeta < 1) (hwn : 0 < s1.wn) (hTn : 0 ≤ s1.Tn) :
    ∀ s2, relax_vibration s1 sf fuel = .ok s2 → 0 < (dampWeighted s2).sum := by
  rcases Nat.lt_or_ge n 3 with h3 | h3
  · -- n = 2: both head and tail amplitudes are 1/2
    have hn2 : n = 2 := by omega
    subst hn2
    rw [rmAmps_two] at hca
    exact relax_good_of_nonneg s1 sf fuel (1/2) _ [1/2] _ hca
      (by rw [hct]; rfl) (by norm_num) (by intro x hx; simp at hx; rw [hx]; norm_num)
  · -- n ≥ 3: the structural bound
    set c : ℝ := 1 / ((n:ℝ) - 1) with hcdef
    have hnR : (2:ℝ) ≤ (n:ℝ) - 1 := by
      have : (3:ℝ) ≤ (n:ℝ) := by exact_mod_cast h3
      linarith
    have hcpos : 0 < c := by positivity
    have hcmul : c * ((n:ℝ) - 1) = 1 := by
      rw [hcdef]
      field_simp
    obtain ⟨rest, hra, hrb, hrl⟩ := rmAmps_structure n h3
    obtain ⟨t1, Ts, hta, ht1, hts⟩ := rmTimes_structure n h3 s1.Tn hTn
    have hrlR : (rest.length : ℝ) = (n:ℝ) - 2 := by
      rw [hrl]
      have : (2:ℕ) ≤ n := by omega
      push_cast [Nat.cast_sub this]
      ring
    have hgap : c * rest.length < 1 - c / 2 := by
      rw [hrlR]
      nlinarith [hcmul, hcpos]
    have hsq : (0:ℝ) < Real.sqrt (1 - s1.zeta ^ 2) := by
      apply Real.sqrt_pos.2
      nlinarith
    intro s2 hr
    obtain ⟨hval, hcase⟩ := relax_vibration_ok s1 sf fuel s2 hr
    have hTmap : s1.conTimes.map (fun k => k / Real.sqrt (1 - s1.zeta ^ 2)) =
        0 :: t1 / Real.sqrt (1 - s1.zeta ^ 2) ::
          Ts.map (fun k => k / Real.sqrt (1 - s1.zeta ^ 2)) := by
      rw [hct, hta, List.map_cons, List.map_cons, zero_div]
    have hTw : ∀ t ∈ Ts.map (fun k => k / Real.sqrt (1 - s1.zeta ^ 2)),
        0 ≤ s1.zeta * s1.wn * t := by
      intro t ht
      obtain ⟨u, hu, rfl⟩ := List.mem_map.1 ht
      have := hts u hu
      have h1 : 0 ≤ u / Real.sqrt (1 - s1.zeta ^ 2) := div_nonneg this hsq.le
      positivity
    rcases hcase with ⟨_, rfl⟩ | ⟨_, rfl⟩ | ⟨_, _, m, hm, _, rfl⟩
    · -- base pattern
      rw [dampWeighted_def, hca, hra, hTmap]
      exact rm_weighted_pos _ _ c _ _ _ _ _ hz0 hcpos.le
        hgap (by positivity) hrb hTw
    · -- OFF
      rw [dampWeighted_def]
      simp only [applyOFF]
      rw [List.map_cons]
      exact zip_exp_sum_pos _ _ _ _ _ _ one_pos (by simp)
    · -- bisection: amplitudes renormalized after adding m ≥ 0 to the head
      rw [dampWeighted_def]
      dsimp only
      rw [hca, hra, hTmap, addFirst_cons, normalize_cons]
      rw [show ((1 - c / 2 + m) :: c :: rest).sum = 1 - c / 2 + m + (c :: rest).sum by
        rw [List.sum_cons]]
      set S : ℝ := 1 - c / 2 + m + (c :: rest).sum with hSdef
      have hrestsum := list_sum_ge_neg c rest hrb
      have hS : 0 < S := by
        rw [hSdef, List.sum_cons]
        have : -(c * rest.length) ≤ rest.sum := hrestsum
        nlinarith [hgap, hcpos]
      rw [show ((c :: rest).map fun k => k / S) = (c :: rest).map (fun x => x / S) from rfl]
      rw [show ((1 - c / 2 + m) / S :: (c :: rest).map (fun x => x / S)) =
          ((1 - c / 2 + m) :: c :: rest).map (fun x => x / S) from rfl]
      rw [zip_exp_sum_map_div]
      apply div_pos _ hS
      exact rm_weighted_pos _ _ c _ _ _ _ _ hz0 hcpos.le (by nlinarith [hgap]) hcpos.le
        hrb hTw

lemma exp_decay_le_one (z w t : ℝ) (h : 0 ≤ z * w * t) : Real.exp (-z * w * t) ≤ 1 := by
  have hz : -z * w * t = -(z * w * t) := by ring
  rw [hz]
  calc Real.exp (-(z * w * t)) ≤ Real.exp 0 := Real.exp_le_exp.mpr (by linarith)
    _ = 1 := Real.exp_zero

lemma normalize_eq_map (xs : List ℝ) :
    normalize xs = xs.map (fun x => x / xs.sum) := rfl

/-- Every state the relaxer can produce from a three-impulse base pattern
`[a, b, a]` with `a > 0 ≥ b` and `a + b ≥ 0` (the SNA shape) hands the
damping scaler a list with positive decay-weighted sum. -/
lemma relax_good_three (s1 : Shaper) (sf : ℝ) (fuel : ℕ) (a b t2 t3 : ℝ)
    (hca : s1.conAmps = [a, b, a]) (hct : s1.conTimes = [0, t2, t3])
    (ha : 0 < a) (hb : b ≤ 0) (hab : 0 ≤ a + b)
    (hz0 : 0 ≤ s1.zeta) (hz1 : s1.zeta < 1) (hwn : 0 < s1.wn)
    (ht2 : 0 ≤ t2) (ht3 : 0 ≤ t3) :
    ∀ s2, relax_vibration s1 sf fuel = .ok s2 → 0 < (dampWeighted s2).sum := by
  have hsq : (0:ℝ) < Real.sqrt (1 - s1.zeta ^ 2) := Real.sqrt_pos.2 (by nlinarith)
  have he2le : Real.exp (-s1.zeta * s1.wn * (t2 / Real.sqrt (1 - s1.zeta ^ 2))) ≤ 1 :=
    exp_decay_le_one _ _ _
      (mul_nonneg (mul_nonneg hz0 hwn.le) (div_nonneg ht2 hsq.le))
  have he2pos : 0 < Real.exp (-s1.zeta * s1.wn * (t2 / Real.sqrt (1 - s1.zeta ^ 2))) :=
    Real.exp_pos _
  have he3pos : 0 < Real.exp (-s1.zeta * s1.wn * (t3 / Real.sqrt (1 - s1.zeta ^ 2))) :=
    Real.exp_pos _
  have key : ∀ x : ℝ, a ≤ x →
      0 < ((([x, b, a]).zip (([0, t2, t3] : List ℝ).map
          (fun k => k / Real.sqrt (1 - s1.zeta ^ 2)))).map
        (fun p => p.1 * Real.exp (-s1.zeta * s1.wn * p.2))).sum := by
    intro x hx
    rw [List.map_cons, List.map_cons, List.map_cons, List.map_nil, List.zip_cons_cons,
      List.zip_cons_cons, List.zip_cons_cons, List.zip_nil_right, List.map_cons,
      List.map_cons, List.map_cons, List.map_nil, List.sum_cons, List.sum_cons,
      List.sum_cons, List.sum_nil, zero_div, mul_zero, Real.exp_zero, mul_one]
    have hbe : b * 1 ≤ b * Real.exp (-s1.zeta * s1.wn * (t2 / Real.sqrt (1 - s1.zeta ^ 2))) :=
      mul_le_mul_of_nonpos_left he2le hb
    nlinarith [mul_pos ha he3pos]
  intro s2 hr
  obtain ⟨hval, hcase⟩ := relax_vibration_ok s1 sf fuel s2 hr
  rcases hcase with ⟨_, rfl⟩ | ⟨_, rfl⟩ | ⟨_, _, m, hm, _, rfl⟩
  · rw [dampWeighted_def, hca, hct]
    exact key a le_rfl
  · rw [dampWeighted_def]
    simp only [applyOFF]
    rw [List.map_cons]
    exact zip_exp_sum_pos _ _ _ _ _ _ one_pos (by simp)
  · rw [dampWeighted_def]
    dsimp only
    rw [hca, hct, addFirst_cons, normalize_eq_map, zip_exp_sum_map_div]
    have hS : (0:ℝ) < ((a + m) :: [b, a]).sum := by
      rw [List.sum_cons, List.sum_cons, List.sum_cons, List.sum_nil]
      linarith
    exact div_pos (key (a + m) (by linarith)) hS

lemma digitizePart_digsum (s1 s3 : Shaper) (h : digitizePart s1 = .ok s3)
    (hB : (digitizeB s3.conAmps s3.conTimes s3.wn s3.zeta s3.dt).sum ≠ 0) :
    s3.digAmps.sum = 1 := by
  obtain ⟨hwn, hz, hfps, hdt, hTn, hty, hsf, hca, hct, hda, _, _⟩ :=
    digitizePart_ok_fields _ _ h
  rw [hwn, hz, hdt, hca, hct] at hB
  rw [hda]
  exact normalize_sum _ hB

lemma sumInv_of (s3 : Shaper) (h1 : s3.conAmps.sum = 1)
    (h2 : (digitizeB s3.conAmps s3.conTimes s3.wn s3.zeta s3.dt).sum ≠ 0 →
      s3.digAmps.sum = 1) :
    SumInv s3 := by
  unfold SumInv
  constructor
  · rw [h1]
    norm_num
  · intro hb
    rw [h2 hb]
    norm_num

/-- C1 (amended): on a constructor-valid model (wn > 0, 0 ≤ zeta < 1,
Tn = 2·pi/wn), every family generator except CUSTOM stores continuous
amplitudes summing to 1 within 1e-9 (in fact exactly), and every family
including CUSTOM stores digital amplitudes summing to 1 within 1e-9 whenever
the digitizer's pre-normalization amplitude sum is nonzero.  CUSTOM stores
the caller's amplitude half verbatim — no renormalization — so its
continuous-amplitude sum is whatever the caller supplied and the claimed
invariant fails for it (see the counterexample).  RM3, RM4, RM5 are
definitionally the RM conjunct at n = 3, 4, 5. -/
theorem claim_C1 (s : Shaper) (hwn : 0 < s.wn) (hz0 : 0 ≤ s.zeta) (hz1 : s.zeta < 1)
    (hT : s.Tn = 2 * Real.pi / s.wn) :
    (∀ s3, OFFrun s = .ok s3 → SumInv s3) ∧
    (∀ seq s3, CUSTOMrun s seq = .ok s3 →
        s3.conAmps = seq.take (seq.length / 2) ∧
        ((digitizeB s3.conAmps s3.conTimes s3.wn s3.zeta s3.dt).sum ≠ 0 →
          |s3.digAmps.sum - 1| ≤ 1 / 1000000000)) ∧
    (∀ sf fuel s3, ZVrun s sf fuel = .ok s3 → SumInv s3) ∧
    (∀ sf fuel s3, ZVDrun s sf fuel = .ok s3 → SumInv s3) ∧
    (∀ sf fuel s3, ZVDDrun s sf fuel = .ok s3 → SumInv s3) ∧
    (∀ sf fuel s3, ZVDDDrun s sf fuel = .ok s3 → SumInv s3) ∧
    (∀ na sf fuel s3, SNArun s na sf fuel = .ok s3 → SumInv s3) ∧
    (∀ v sf fuel s3, EIrun s v sf fuel = .ok s3 → SumInv s3) ∧
    (∀ n sf fuel s3, RMrun s n sf fuel = .ok s3 → SumInv s3) ∧
    (∀ s3, UMZVrun s = .ok s3 → SumInv s3) ∧
    (∀ s3, UMZVDrun s = .ok s3 → SumInv s3) := by
  refine ⟨?_, ?_, ?_, ?_, ?_, ?_, ?_, ?_, ?_, ?_, ?_⟩
  · intro s3 h
    obtain rfl := (Outcome.ok.inj h).symm
    unfold SumInv
    constructor
    · show |([1] : List ℝ).sum - 1| ≤ 1 / 1000000000
      norm_num
    · intro _
      show |([1] : List ℝ).sum - 1| ≤ 1 / 1000000000
      norm_num
  · intro seq s3 h
    unfold CUSTOMrun at h
    by_cases hpar : seq.length % 2 ≠ 0
    · rw [if_pos hpar] at h
      exact Outcome.noConfusion h
    · rw [if_neg hpar] at h
      constructor
      · exact (digitizePart_ok_fields _ _ h).2.2.2.2.2.2.2.1
      · intro hb
        rw [digitizePart_digsum _ _ h hb]
        norm_num
  · intro sf fuel s3 h
    unfold ZVrun at h
    obtain ⟨h1, h2⟩ := pipeline_sums_core _ sf fuel s3 h
      (relax_good_of_nonneg _ sf fuel _ _ _ _ rfl rfl (by norm_num)
        (by intro x hx
            rw [List.mem_singleton.1 hx]
            norm_num))
    exact sumInv_of s3 h1 h2
  · intro sf fuel s3 h
    unfold ZVDrun at h
    obtain ⟨h1, h2⟩ := pipeline_sums_core _ sf fuel s3 h
      (relax_good_of_nonneg _ sf fuel _ _ _ _ rfl rfl (by norm_num)
        (by intro x hx
            simp only [List.mem_cons, List.not_mem_nil, or_false] at hx
            rcases hx with rfl | rfl <;> norm_num))
    exact sumInv_of s3 h1 h2
  · intro sf fuel s3 h
    unfold ZVDDrun at h
    obtain ⟨h1, h2⟩ := pipeline_sums_core _ sf fuel s3 h
      (relax_good_of_nonneg _ sf fuel _ _ _ _ rfl rfl (by norm_num)
        (by intro x hx
            simp only [List.mem_cons, List.not_mem_nil, or_false] at hx
            rcases hx with rfl | rfl | rfl <;> norm_num))
    exact sumInv_of s3 h1 h2
  · intro sf fuel s3 h
    unfold ZVDDDrun at h
    obtain ⟨h1, h2⟩ := pipeline_sums_core _ sf fuel s3 h
      (relax_good_of_nonneg _ sf fuel _ _ _ _ rfl rfl (by norm_num)
        (by intro x hx
            simp only [List.mem_cons, List.not_mem_nil, or_false] at hx
            rcases hx with rfl | rfl | rfl | rfl <;> norm_num))
    exact sumInv_of s3 h1 h2
  · intro na sf fuel s3 h
    unfold SNArun at h
    by_cases hna : ¬(0 ≤ na ∧ na ≤ 1)
    · rw [if_pos hna] at h
      exact Outcome.noConfusion h
    · rw [if_neg hna] at h
      rw [not_not] at hna
      obtain ⟨hna0, hna1⟩ := hna
      obtain ⟨h1, h2⟩ := pipeline_sums_core _ sf fuel s3 h
        (relax_good_three _ sf fuel ((1 - -1 * na) / 2) (-1 * na) _ _ rfl rfl
          (by linarith) (by linarith) (by linarith) hz0 hz1 hwn
          (mul_nonneg (by positivity) (Real.arccos_nonneg _))
          (mul_nonneg (by positivity) (Real.arccos_nonneg _)))
      exact sumInv_of s3 h1 h2
  · intro v sf fuel s3 h
    unfold EIrun at h
    by_cases hv : ¬(0 ≤ v ∧ v ≤ 1)
    · rw [if_pos hv] at h
      exact Outcome.noConfusion h
    · rw [if_neg hv] at h
      rw [not_not] at hv
      obtain ⟨hv0, hv1⟩ := hv
      obtain ⟨h1, h2⟩ := pipeline_sums_core _ _ fuel s3 h
        (relax_good_of_nonneg _ _ fuel _ _ _ _ rfl rfl (by linarith)
          (by intro x hx
              simp only [List.mem_cons, List.not_mem_nil, or_false] at hx
              rcases hx with rfl | rfl <;> linarith))
      exact sumInv_of s3 h1 h2
  · intro n sf fuel s3 h
    unfold RMrun at h
    cases hg : generate_rm_impulses n s.Tn with
    | error e =>
        rw [hg] at h
        exact Outcome.noConfusion h
    | ok out =>
        rw [hg] at h
        have hout : 2 ≤ n ∧ out = (rmAmps n, rmTimes n s.Tn) := by
          unfold generate_rm_impulses at hg
          by_cases h0 : n = 0
          · rw [if_pos h0] at hg
            exact Except.noConfusion hg
          · rw [if_neg h0] at hg
            by_cases hone : n = 1
            · rw [if_pos hone] at hg
              exact Except.noConfusion hg
            · rw [if_neg hone] at hg
              exact ⟨by omega, (Except.ok.inj hg).symm⟩
        obtain ⟨hn2, rfl⟩ := hout
        have hTnn : 0 ≤ s.Tn := by
          rw [hT]
          positivity
        obtain ⟨h1, h2⟩ := pipeline_sums_core _ sf fuel s3 h
          (relax_good_rm _ sf fuel n hn2 rfl rfl hz0 hz1 hwn hTnn)
        exact sumInv_of s3 h1 h2
  · intro s3 h
    unfold UMZVrun at h
    refine sumInv_of s3 ?_ ?_
    · rw [(digitizePart_ok_fields _ _ h).2.2.2.2.2.2.2.1]
      show ([1, -1, 1] : List ℝ).sum = 1
      norm_num
    · intro hb
      exact digitizePart_digsum _ _ h hb
  · intro s3 h
    unfold UMZVDrun at h
    refine sumInv_of s3 ?_ ?_
    · rw [(digitizePart_ok_fields _ _ h).2.2.2.2.2.2.2.1]
      show ([1, -1, 1, -1, 1] : List ℝ).sum = 1
      norm_num
    · intro hb
      exact digitizePart_digsum _ _ h hb

/-- Witness for `claim_C1` at the valid model (wn=1, zeta=0, fps=100): the OFF
conjunct gives the amplitude-sum invariant for the OFF state. -/
theorem claim_C1_witness :
    (0 : ℝ) < sigmaOne.wn ∧ (0 : ℝ) ≤ sigmaOne.zeta ∧ sigmaOne.zeta < 1 ∧
      sigmaOne.Tn = 2 * Real.pi / sigmaOne.wn ∧
      OFFrun sigmaOne = .ok (applyOFF sigmaOne) ∧ SumInv (applyOFF sigmaOne) := by
  have hwn : (0 : ℝ) < sigmaOne.wn := by
    show (0 : ℝ) < 1
    norm_num
  have hz0 : (0 : ℝ) ≤ sigmaOne.zeta := le_refl 0
  have hz1 : sigmaOne.zeta < 1 := by
    show (0 : ℝ) < 1
    norm_num
  have hT : sigmaOne.Tn = 2 * Real.pi / sigmaOne.wn := by
    show 2 * Real.pi / 1 = 2 * Real.pi / 1
    rfl
  exact ⟨hwn, hz0, hz1, hT, rfl,
    (claim_C1 sigmaOne hwn hz0 hz1 hT).1 (applyOFF sigmaOne) rfl⟩

/-- Counterexample to C1 as stated: `CUSTOM([0.3, 0.3, 0, 1])` on the
(1, 0, 100) model succeeds and stores continuous amplitudes `[0.3, 0.3]`,
whose sum 0.6 is not within 1e-9 of 1 — CUSTOM never renormalizes the
caller's amplitudes. -/
theorem claim_C1_counterexample :
    (CUSTOMrun sigmaOne [0.3, 0.3, 0, 1]).isOk = true ∧
      (CUSTOMrun sigmaOne [0.3, 0.3, 0, 1]).state.conAmps = [0.3, 0.3] ∧
      ¬(|([0.3, 0.3] : List ℝ).sum - 1| ≤ 1 / 1000000000) := by
  have hrun : CUSTOMrun sigmaOne [0.3, 0.3, 0, 1] =
      digitizePart
        { sigmaOne with shaperType := "CUSTOM", strengthFrac := none,
                        conNum := 2, conAmps := [0.3, 0.3], conTimes := [0, 1] } := by
    unfold CUSTOMrun
    rw [if_neg (by norm_num)]
    rfl
  rw [hrun, digitizePart_cons _ 0.3 0 [0.3] [1] rfl rfl]
  refine ⟨rfl, rfl, ?_⟩
  simp only [List.sum_cons, List.sum_nil]
  intro habs
  rw [abs_le] at habs
  norm_num at habs

end InputShaping
